import Mathlib

/-!
Verification development for the MicroLearningServer backend
(`main.py`, `database.py`, `gemini_service.py`, `text_extractor.py`).

The Python code is shallowly embedded: the `files` / `videos` SQLite
tables become lists of records, each database helper becomes a pure
function on those lists, the upload endpoint and the background task
become functions from their inputs (with external collaborators --
the filesystem, the Gemini API, the text extractors -- supplied as
oracle values), and `json.dumps` / `json.loads` are modelled by an
executable printer/parser pair over an inductive JSON type (integers
only for JSON numbers; floats are out of scope of the model).
Strings are processed as `List Char` throughout so that every
definition evaluates inside the kernel.
-/

/- ------------------------------------------------------------------ -/
/- String helpers (models of the Python string/pathlib operations)    -/
/- ------------------------------------------------------------------ -/

/-- Characters treated as whitespace by Python `str.strip()` (ASCII part). -/
def pyIsSpace (c : Char) : Bool :=
  c = ' ' || c = '\t' || c = '\n' || c = '\x0d' || c = '\x0b' || c = '\x0c'

/-- Model of Python `str.strip()` on a character list. -/
def pyStrip (cs : List Char) : List Char :=
  ((cs.dropWhile pyIsSpace).reverse.dropWhile pyIsSpace).reverse

/-- Model of Python `str.lower()` (ASCII case folding). -/
def pyLower (cs : List Char) : List Char :=
  cs.map Char.toLower

/-- Split a character list on a separator character (like `str.split(sep)`:
`splitChar '/' "a//b" = ["a", "", "b"]`). -/
def splitChar (c : Char) : List Char → List (List Char)
  | [] => [[]]
  | x :: xs =>
    let r := splitChar c xs
    if x = c then [] :: r
    else
      match r with
      | [] => [[x]]
      | h :: t => (x :: h) :: t

/-- Index of the last `'.'` in a character list (Python `str.rfind('.')`),
or `none` when there is no dot. -/
def rfindDot : List Char → Option Nat
  | [] => none
  | c :: cs =>
    match rfindDot cs with
    | some i => some (i + 1)
    | none => if c = '.' then some 0 else none

/-- Model of `pathlib.PurePosixPath(s).name`: the last path component,
after dropping empty components and `"."` components. -/
def pathName (cs : List Char) : List Char :=
  ((splitChar '/' cs).filter (fun p => ¬(p = [] ∨ p = ['.']))).getLastD []

/-- Model of `pathlib.PurePosixPath(s).suffix`: `name[i:]` where `i` is the
index of the last dot of the name, provided `0 < i < len(name) - 1`;
otherwise the empty string. -/
def pathSuffix (cs : List Char) : List Char :=
  let name := pathName cs
  match rfindDot name with
  | none => []
  | some i => if 0 < i ∧ i + 1 < name.length then name.drop i else []

/- ------------------------------------------------------------------ -/
/- JSON values, `json.dumps` and `json.loads`                         -/
/- ------------------------------------------------------------------ -/

/-- JSON values as produced by `json.loads`.  Numbers are modelled as
integers only; objects keep their members in textual order. -/
inductive Json where
  | null : Json
  | bool (b : Bool) : Json
  | num (n : Int) : Json
  | str (s : List Char) : Json
  | arr (items : List Json) : Json
  | obj (members : List (List Char × Json)) : Json

/-- Hexadecimal digit characters, lower case (as used by Python's
`json` module when escaping control characters). -/
def hexDigitChar (n : Nat) : Char :=
  if n < 10 then Char.ofNat (48 + n) else Char.ofNat (87 + n)

/-- Escape one character the way `json.dumps(..., ensure_ascii=False)`
does: only `"`, `\\` and control characters below `0x20` are escaped. -/
def escapeChar (c : Char) : List Char :=
  if c = '"' then ['\\', '"']
  else if c = '\\' then ['\\', '\\']
  else if c = '\x08' then ['\\', 'b']
  else if c = '\x0c' then ['\\', 'f']
  else if c = '\n' then ['\\', 'n']
  else if c = '\x0d' then ['\\', 'r']
  else if c = '\t' then ['\\', 't']
  else if c.toNat < 32 then
    ['\\', 'u', '0', '0', hexDigitChar (c.toNat / 16), hexDigitChar (c.toNat % 16)]
  else [c]

/-- Serialize a JSON string body (without the surrounding quotes). -/
def escapeString (cs : List Char) : List Char :=
  cs.flatMap escapeChar

/-- Decimal digits of a natural number, most significant first. -/
def natChars (n : Nat) : List Char :=
  if h : n < 10 then [Char.ofNat (48 + n)]
  else natChars (n / 10) ++ [Char.ofNat (48 + n % 10)]
decreasing_by exact Nat.div_lt_self (by omega) (by omega)

/-- Decimal representation of an integer (as printed by `json.dumps`). -/
def intChars (n : Int) : List Char :=
  if n < 0 then '-' :: natChars n.natAbs else natChars n.natAbs

mutual
/-- Model of `json.dumps(v, ensure_ascii=False)` (default separators:
`", "` between items and `": "` after keys). -/
def jsonDump : Json → List Char
  | .num n => intChars n
  | .null => "null".data
  | .bool b => if b then "true".data else "false".data
  | .str s => '"' :: escapeString s ++ ['"']
  | .arr items => '[' :: jsonDumpItems items ++ [']']
  | .obj members => '\x7b' :: jsonDumpMembers members ++ ['\x7d']
/-- Array elements, separated by `", "`. -/
def jsonDumpItems : List Json → List Char
  | [] => []
  | [x] => jsonDump x
  | x :: y :: xs => jsonDump x ++ ',' :: ' ' :: jsonDumpItems (y :: xs)
/-- Object members, `"key": value` separated by `", "`. -/
def jsonDumpMembers : List (List Char × Json) → List Char
  | [] => []
  | [(k, v)] => '"' :: escapeString k ++ '"' :: ':' :: ' ' :: jsonDump v
  | (k, v) :: m :: ms =>
    '"' :: escapeString k ++ '"' :: ':' :: ' ' :: jsonDump v ++
      ',' :: ' ' :: jsonDumpMembers (m :: ms)
end

/-- JSON insignificant whitespace accepted by the parser. -/
def jsonIsWs (c : Char) : Bool :=
  c = ' ' || c = '\t' || c = '\n' || c = '\x0d'

/-- Is `c` a hexadecimal digit character? -/
def isHexChar (c : Char) : Bool :=
  (48 ≤ c.toNat && c.toNat ≤ 57) || ('a' ≤ c && c ≤ 'f') || ('A' ≤ c && c ≤ 'F')

/-- Numeric value of a hexadecimal digit character. -/
def hexVal (c : Char) : Nat :=
  if c.toNat ≥ 97 then c.toNat - 87
  else if c.toNat ≥ 65 then c.toNat - 55
  else c.toNat - 48

/-- The single-character string escapes of JSON. -/
def unescapeChar (e : Char) : Option Char :=
  if e = '"' then some '"'
  else if e = '\\' then some '\\'
  else if e = '/' then some '/'
  else if e = 'b' then some '\x08'
  else if e = 'f' then some '\x0c'
  else if e = 'n' then some '\n'
  else if e = 'r' then some '\x0d'
  else if e = 't' then some '\t'
  else none

/-- Parse a JSON string body up to (and consuming) the closing quote.
Returns the decoded characters and the rest of the input. -/
def parseStringBody : List Char → Option (List Char × List Char)
  | [] => none
  | c :: rest =>
    if c = '"' then some ([], rest)
    else if c = '\\' then
      match rest with
      | 'u' :: h1 :: h2 :: h3 :: h4 :: rest2 =>
        if isHexChar h1 ∧ isHexChar h2 ∧ isHexChar h3 ∧ isHexChar h4 then
          match parseStringBody rest2 with
          | some (s, r) =>
            some (Char.ofNat (((hexVal h1 * 16 + hexVal h2) * 16 + hexVal h3) * 16 + hexVal h4) :: s, r)
          | none => none
        else none
      | e :: rest2 =>
        match unescapeChar e with
        | some d =>
          match parseStringBody rest2 with
          | some (s, r) => some (d :: s, r)
          | none => none
        | none => none
      | [] => none
    else if c.toNat < 32 then none
    else
      match parseStringBody rest with
      | some (s, r) => some (c :: s, r)
      | none => none

/-- Value of a (non-empty) list of decimal digit characters. -/
def digitsVal (ds : List Char) : Nat :=
  ds.foldl (fun a c => a * 10 + (c.toNat - 48)) 0

/-- Is `c` a decimal digit character? -/
def pyIsDigit (c : Char) : Bool :=
  48 ≤ c.toNat && c.toNat ≤ 57

/-- Parse a run of decimal digits as an integer with the given sign;
fails when there is no digit, or on a float-looking remainder (the
model covers integer JSON numbers only). -/
def parseIntDigits (neg : Bool) (cs : List Char) : Option (Int × List Char) :=
  let ds := cs.takeWhile pyIsDigit
  let rest := cs.dropWhile pyIsDigit
  if ds.isEmpty then none
  else
    let v : Int := if neg then -(digitsVal ds : Int) else (digitsVal ds : Int)
    match rest with
    | [] => some (v, [])
    | c :: _ => if c = '.' ∨ c = 'e' ∨ c = 'E' then none else some (v, rest)

/-- Parse a JSON integer: an optional minus sign followed by digits. -/
def parseIntToken (cs : List Char) : Option (Int × List Char) :=
  match cs with
  | [] => none
  | c :: t => if c = '-' then parseIntDigits true t else parseIntDigits false (c :: t)

mutual
/-- Fuel-indexed recursive-descent JSON value parser (model of the
grammar accepted by `json.loads`, restricted to integer numbers). -/
def parseValue : Nat → List Char → Option (Json × List Char)
  | 0, _ => none
  | fuel + 1, cs =>
    match cs.dropWhile jsonIsWs with
    | [] => none
    | c :: rest =>
      if c = 'n' then
        match rest with
        | 'u' :: 'l' :: 'l' :: r => some (.null, r)
        | _ => none
      else if c = 't' then
        match rest with
        | 'r' :: 'u' :: 'e' :: r => some (.bool true, r)
        | _ => none
      else if c = 'f' then
        match rest with
        | 'a' :: 'l' :: 's' :: 'e' :: r => some (.bool false, r)
        | _ => none
      else if c = '"' then
        match parseStringBody rest with
        | some (s, r) => some (.str s, r)
        | none => none
      else if c = '[' then
        match rest.dropWhile jsonIsWs with
        | [] => none
        | d :: r => if d = ']' then some (.arr [], r) else parseItems fuel (d :: r)
      else if c = '\x7b' then
        match rest.dropWhile jsonIsWs with
        | [] => none
        | d :: r => if d = '\x7d' then some (.obj [], r) else parseMembers fuel (d :: r)
      else
        match parseIntToken (c :: rest) with
        | some (n, r) => some (.num n, r)
        | none => none
/-- Parse the elements of a non-empty JSON array, consuming the
closing bracket. -/
def parseItems : Nat → List Char → Option (Json × List Char)
  | 0, _ => none
  | fuel + 1, cs =>
    match parseValue fuel cs with
    | some (v, r1) =>
      match r1.dropWhile jsonIsWs with
      | ']' :: r2 => some (.arr [v], r2)
      | ',' :: r2 =>
        match parseItems fuel (r2.dropWhile jsonIsWs) with
        | some (.arr vs, r3) => some (.arr (v :: vs), r3)
        | _ => none
      | _ => none
    | none => none
/-- Parse the members of a non-empty JSON object, consuming the
closing brace. -/
def parseMembers : Nat → List Char → Option (Json × List Char)
  | 0, _ => none
  | fuel + 1, cs =>
    match cs.dropWhile jsonIsWs with
    | '"' :: rest =>
      match parseStringBody rest with
      | some (k, r1) =>
        match r1.dropWhile jsonIsWs with
        | ':' :: r2 =>
          match parseValue fuel (r2.dropWhile jsonIsWs) with
          | some (v, r3) =>
            match r3.dropWhile jsonIsWs with
            | '\x7d' :: r4 => some (.obj [(k, v)], r4)
            | ',' :: r4 =>
              match parseMembers fuel (r4.dropWhile jsonIsWs) with
              | some (.obj ms, r5) => some (.obj ((k, v) :: ms), r5)
              | _ => none
            | _ => none
          | none => none
        | _ => none
      | none => none
    | _ => none
end

/-- Model of `json.loads`: parse a whole character list as one JSON value,
requiring only whitespace after it.  `none` models `JSONDecodeError`. -/
def jsonLoads (cs : List Char) : Option Json :=
  match parseValue (cs.length + 1) cs with
  | some (v, rest) => if rest.dropWhile jsonIsWs = [] then some v else none
  | none => none

/-- `json.dumps` at `String` type. -/
def jsonDumpStr (v : Json) : String :=
  String.mk (jsonDump v)

/- ------------------------------------------------------------------ -/
/- Data model: the `files` and `videos` tables (`database.py`)        -/
/- ------------------------------------------------------------------ -/

/-- One row of the `files` table. -/
structure FileRecord where
  id : Nat
  filename : String
  original_filename : String
  status : String
  script_json : Option String
  created_at : Nat
deriving DecidableEq, Repr

/-- One row of the `videos` table. -/
structure VideoRecord where
  id : Nat
  file_id : Nat
  video_path : String
  status : String
  created_at : Nat
deriving DecidableEq, Repr

/-- State of the server: both tables, the names written to the uploads
directory, the ids mid-upload (inserted but not yet set to
`processing`), the ids with a scheduled unfinished background task,
and the next AUTOINCREMENT id. -/
structure ServerState where
  files : List FileRecord
  videos : List VideoRecord
  disk : List String
  inserting : List Nat
  tasks : List Nat
  nextId : Nat
deriving DecidableEq, Repr

/-- `database.insert_file`: append a row with status `'uploaded'`;
`fid` is the AUTOINCREMENT id SQLite assigns, `t` the insertion
timestamp (`datetime.utcnow()`). -/
def insert_file (files : List FileRecord) (fid : Nat)
    (filename original_filename : String) (t : Nat) : List FileRecord :=
  files ++ [⟨fid, filename, original_filename, "uploaded", none, t⟩]

/-- Comparison used by `ORDER BY created_at DESC`. -/
def newestFirst (a b : FileRecord) : Bool :=
  decide (b.created_at ≤ a.created_at)

/-- `database.get_all_files`: every row, ordered by `created_at`
descending. -/
def get_all_files (files : List FileRecord) : List FileRecord :=
  files.mergeSort newestFirst

/-- `database.get_file_by_id`: `SELECT * FROM files WHERE id = ?` with
`fetchone()` — the first stored row with that id, or `None`. -/
def get_file_by_id (files : List FileRecord) (fid : Nat) : Option FileRecord :=
  files.find? (fun r => r.id = fid)

/-- Comparison used by `ORDER BY created_at DESC` on videos. -/
def newestVideoFirst (a b : VideoRecord) : Bool :=
  decide (b.created_at ≤ a.created_at)

/-- `database.get_videos_by_file_id`: rows with the given `file_id`,
newest first. -/
def get_videos_by_file_id (videos : List VideoRecord) (fid : Nat) : List VideoRecord :=
  (videos.filter (fun v => v.file_id = fid)).mergeSort newestVideoFirst

/-- `database.update_file_status`: `UPDATE files SET status = ?` (and
`script_json = ?` when a script is supplied) `WHERE id = ?`, one
statement touching every row whose id matches and nothing else. -/
def update_file_status (files : List FileRecord) (fid : Nat)
    (status : String) (script_json : Option String) : List FileRecord :=
  files.map (fun r =>
    if r.id = fid then
      match script_json with
      | some s => { r with status := status, script_json := some s }
      | none => { r with status := status }
    else r)

/- ------------------------------------------------------------------ -/
/- `gemini_service.generate_script`                                   -/
/- ------------------------------------------------------------------ -/

/-- Outcome of the external Gemini call (`model.generate_content` and
the `response.text` accessor), supplied as an oracle: either some
exception is raised, or a raw response text is produced. -/
inductive ApiOutcome where
  | raises : ApiOutcome
  | responds (raw : String) : ApiOutcome

/-- Python truthiness of `GEMINI_API_KEY` (`os.getenv` result):
falsy when unset or the empty string. -/
def pyTruthyStrOpt : Option String → Bool
  | none => false
  | some s => s ≠ ""

/-- `re.sub(r"^```(?:json)?\s*", "", s)`: strip one leading code fence
(optionally tagged `json`) and the whitespace after it. -/
def stripFencePre (cs : List Char) : List Char :=
  match cs with
  | '`' :: '`' :: '`' :: rest =>
    (match rest with
     | 'j' :: 's' :: 'o' :: 'n' :: r => r
     | _ => rest).dropWhile pyIsSpace
  | _ => cs

/-- `re.sub(r"\s*```$", "", s)`: strip one trailing code fence and the
whitespace before it (the input is already right-stripped, so `$`
is the end of the string). -/
def stripFenceSuf (cs : List Char) : List Char :=
  match cs.reverse with
  | '`' :: '`' :: '`' :: rest => (rest.dropWhile pyIsSpace).reverse
  | _ => cs

/-- The response post-processing pipeline of `generate_script`:
`strip`, remove a leading fence, remove a trailing fence, `strip`. -/
def postprocessResponse (cs : List Char) : List Char :=
  pyStrip (stripFenceSuf (stripFencePre (pyStrip cs)))

/-- Membership of a key in a JSON object (`"k" in script` on a dict). -/
def hasKeyMember (ms : List (List Char × Json)) (k : List Char) : Bool :=
  ms.any (fun m => m.1 = k)

/-- Dict lookup `script[k]` on a parsed JSON object (with duplicate
keys, `json.loads` keeps the last occurrence). -/
def lookupMember (ms : List (List Char × Json)) (k : List Char) : Option Json :=
  (ms.reverse.find? (fun m => m.1 = k)).map (fun m => m.2)

/-- `gemini_service.generate_script`, with the credential and the API
call supplied as oracles.  Returns the parsed script dict, or `None`
on any failure.  For a parsed value that is not a dict, every Python
route (`in` on a list or string, `TypeError` from `in` or from
indexing on other types) also ends in returning `None`. -/
def generate_script (apiKey : Option String) (api : ApiOutcome) : Option Json :=
  if pyTruthyStrOpt apiKey = false then none
  else
    match api with
    | .raises => none
    | .responds raw =>
      match jsonLoads (postprocessResponse raw.data) with
      | none => none
      | some (.obj members) =>
        if ¬(hasKeyMember members "summary".data) ∨ ¬(hasKeyMember members "slides".data) then
          none
        else
          match lookupMember members "slides".data with
          | some (.arr slides) => if slides.isEmpty then none else some (.obj members)
          | _ => none
      | some _ => none

/- ------------------------------------------------------------------ -/
/- `main.process_file_sync` (the background task)                     -/
/- ------------------------------------------------------------------ -/

/-- Outcome of `extract_text(filepath)`, supplied as an oracle. -/
inductive ExtractOutcome where
  | raises : ExtractOutcome
  | extracted (text : String) : ExtractOutcome

/-- Outcome of `generate_script(text)` as observed by the task: the
returned value, or an exception. -/
inductive GenOutcome where
  | raises : GenOutcome
  | returns (script : Option Json) : GenOutcome

/-- Python truthiness of a JSON value (`if script:`). -/
def jsonTruthy : Json → Bool
  | .null => false
  | .bool b => b
  | .num n => n ≠ 0
  | .str s => s ≠ []
  | .arr items => !items.isEmpty
  | .obj members => !members.isEmpty

/-- `not text or not text.strip()`. -/
def pyBlank (text : String) : Bool :=
  text.data = [] || pyStrip text.data = []

/-- One `update_file_status` call made by the task. -/
structure StatusUpdate where
  status : String
  script_json : Option String
deriving DecidableEq, Repr

/-- Observable behaviour of one run of the background task: the status
updates it performed, in order, and whether `generate_script` was
called. -/
structure RunResult where
  updates : List StatusUpdate
  gemini_called : Bool
deriving DecidableEq, Repr

/-- `main.process_file_sync`, as the sequence of writes it performs on
the record, with the two collaborators supplied as oracles. -/
def process_file_sync (er : ExtractOutcome) (gr : GenOutcome) : RunResult :=
  match er with
  | .raises => ⟨[⟨"script_failed", none⟩], false⟩
  | .extracted text =>
    if pyBlank text then ⟨[⟨"script_failed", none⟩], false⟩
    else
      match gr with
      | .raises => ⟨[⟨"script_failed", none⟩], true⟩
      | .returns none => ⟨[⟨"script_failed", none⟩], true⟩
      | .returns (some j) =>
        if jsonTruthy j then ⟨[⟨"script_ready", some (jsonDumpStr j)⟩], true⟩
        else ⟨[⟨"script_failed", none⟩], true⟩

/- ------------------------------------------------------------------ -/
/- `text_extractor.extract_text` dispatch                             -/
/- ------------------------------------------------------------------ -/

/-- Which branch `extract_text` takes for a given path. -/
inductive ExtractorKind where
  | txtReader : ExtractorKind
  | pdfReader : ExtractorKind
  | unsupportedType : ExtractorKind
deriving DecidableEq, Repr

/-- The dispatch of `text_extractor.extract_text` on
`Path(filepath).suffix.lower()`; `unsupportedType` models the
`ValueError` branch. -/
def extract_text_dispatch (filepath : List Char) : ExtractorKind :=
  let extension := pyLower (pathSuffix filepath)
  if extension = ".txt".data then .txtReader
  else if extension = ".pdf".data then .pdfReader
  else .unsupportedType

/- ------------------------------------------------------------------ -/
/- `main.upload_file` and the read endpoints                          -/
/- ------------------------------------------------------------------ -/

/-- `ALLOWED_EXTENSIONS` from `main.py`. -/
def ALLOWED_EXTENSIONS : List (List Char) := [".txt".data, ".pdf".data]

/-- `file.filename or "unknown"` (`None` and `""` are falsy). -/
def orUnknown : Option String → String
  | none => "unknown"
  | some s => if s = "" then "unknown" else s

/-- The JSON body returned by `POST /upload`. -/
structure UploadResponse where
  file_id : Nat
  filename : String
  status : String
deriving DecidableEq, Repr

/-- `main.upload_file`: validate the extension, write the bytes under a
fresh name, insert the record, set it to `processing`, schedule the
background task, and answer; `uuidHex` is the `uuid.uuid4().hex`
drawn for this request and `t` the insertion timestamp.  An
`HTTPException` is modelled as `.error` with its status code, leaving
the state unchanged. -/
def upload_file (st : ServerState) (clientFilename : Option String)
    (uuidHex : List Char) (t : Nat) : Except Nat UploadResponse × ServerState :=
  let original := orUnknown clientFilename
  let ext := pyLower (pathSuffix original.data)
  if ext ∉ ALLOWED_EXTENSIONS then (.error 400, st)
  else
    let unique := String.mk (uuidHex ++ ext)
    let fpath := "uploads/" ++ unique
    let fid := st.nextId
    let files1 := insert_file st.files fid unique original t
    let files2 := update_file_status files1 fid "processing" none
    (.ok ⟨fid, original, "processing"⟩,
      { st with
        disk := st.disk ++ [fpath]
        files := files2
        nextId := fid + 1
        tasks := st.tasks ++ [fid] })

/-- The JSON body returned by `GET /status/{file_id}`. -/
structure StatusResponse where
  file_id : Nat
  filename : String
  status : String
  script : Option Json
  created_at : Nat
  videos : List VideoRecord

/-- The script-decoding step of `file_status`: `script_json` is parsed
when present and truthy (`if file_record.get("script_json"):`), and a
parse failure is swallowed into `None`. -/
def decodeScriptJson (sj : Option String) : Option Json :=
  match sj with
  | none => none
  | some s => if s = "" then none else jsonLoads s.data

/-- `main.file_status` (`GET /status/{file_id}`): 404 when the id is
unknown, otherwise the record's fields, its videos, and the decoded
script (`None` when absent, empty, or unparseable). -/
def file_status (st : ServerState) (fid : Nat) : Except Nat StatusResponse :=
  match get_file_by_id st.files fid with
  | none => .error 404
  | some r =>
    .ok ⟨r.id, r.original_filename, r.status, decodeScriptJson r.script_json,
         r.created_at, get_videos_by_file_id st.videos fid⟩

/-- `main.list_files` (`GET /files`). -/
def list_files (st : ServerState) : List FileRecord :=
  get_all_files st.files

/- ------------------------------------------------------------------ -/
/- Reachable states of the files table                                -/
/- ------------------------------------------------------------------ -/

/-- The empty database (SQLite AUTOINCREMENT starts at 1). -/
def initialState : ServerState := ⟨[], [], [], [], [], 1⟩

/-- The individual writes the application performs on the store, in the
order the code issues them.  An upload is the `insertRow` write
(bytes to disk + `insert_file`) followed by `markProcessing` on the
fresh id (`update_file_status(fid, "processing")` issued before the
task is scheduled); the background task ends with exactly one of
`taskSucceeds` / `taskFails` (the two `update_file_status` shapes in
`process_file_sync`). -/
inductive Step : ServerState → ServerState → Prop where
  | insertRow (s : ServerState) (fn ofn fp : String) (t : Nat) :
      Step s { s with
        disk := s.disk ++ [fp]
        files := insert_file s.files s.nextId fn ofn t
        inserting := s.inserting ++ [s.nextId]
        nextId := s.nextId + 1 }
  | markProcessing (s : ServerState) (fid : Nat) (h : fid ∈ s.inserting) :
      Step s { s with
        files := update_file_status s.files fid "processing" none
        inserting := s.inserting.erase fid
        tasks := s.tasks ++ [fid] }
  | taskSucceeds (s : ServerState) (fid : Nat) (h : fid ∈ s.tasks) (js : String) :
      Step s { s with
        files := update_file_status s.files fid "script_ready" (some js)
        tasks := s.tasks.erase fid }
  | taskFails (s : ServerState) (fid : Nat) (h : fid ∈ s.tasks) :
      Step s { s with
        files := update_file_status s.files fid "script_failed" none
        tasks := s.tasks.erase fid }

/-- States reachable from the empty database through the application's
writes. -/
inductive Reachable : ServerState → Prop where
  | init : Reachable initialState
  | step {s s' : ServerState} : Reachable s → Step s s' → Reachable s'

/-- Progress order on the status strings of the file lifecycle. -/
def statusRank : String → Nat
  | "uploaded" => 0
  | "processing" => 1
  | "script_ready" => 2
  | "script_failed" => 2
  | _ => 0

/-- Is this status terminal? -/
def isTerminalStatus (s : String) : Bool :=
  s = "script_ready" || s = "script_failed"

/-- Auxiliary state invariant, strong enough to be inductive over
`Step`: id bounds and uniqueness, bookkeeping of the `inserting` /
`tasks` id sets, the status alphabet, and the script/status relation.
-/
def StateInv (s : ServerState) : Prop :=
  (∀ r ∈ s.files, r.id < s.nextId) ∧
  (s.files.map (fun r => r.id)).Nodup ∧
  s.inserting.Nodup ∧
  s.tasks.Nodup ∧
  (∀ i ∈ s.inserting, i ∉ s.tasks) ∧
  (∀ i ∈ s.inserting, ∃ r ∈ s.files, r.id = i ∧ r.status = "uploaded") ∧
  (∀ i ∈ s.tasks, ∃ r ∈ s.files, r.id = i ∧ r.status = "processing") ∧
  (∀ r ∈ s.files, r.script_json.isSome ↔ r.status = "script_ready") ∧
  (∀ r ∈ s.files,
    r.status = "uploaded" ∨ r.status = "processing" ∨
    r.status = "script_ready" ∨ r.status = "script_failed")

/-- Boundary condition after a serialized integer: the next character
(if any) neither extends the digit run nor turns it into a float. -/
def intBoundary : List Char → Prop
  | [] => True
  | c :: _ => pyIsDigit c = false ∧ c ≠ '.' ∧ c ≠ 'e' ∧ c ≠ 'E'

/- ================================================================== -/
/- Theorems                                                           -/
/- ================================================================== -/

/- Decimal printing/parsing round trip -/

theorem natChars_ge (n : Nat) (h : ¬ n < 10) :
    natChars n = natChars (n / 10) ++ [Char.ofNat (48 + n % 10)] := by
  rw [natChars]
  simp [h]

theorem natChars_lt (n : Nat) (h : n < 10) :
    natChars n = [Char.ofNat (48 + n)] := by
  rw [natChars]
  simp [h]

theorem digitChar_toNat (d : Nat) (h : d < 10) :
    (Char.ofNat (48 + d)).toNat = 48 + d := by
  interval_cases d <;> decide

theorem digitChar_pyIsDigit (d : Nat) (h : d < 10) :
    pyIsDigit (Char.ofNat (48 + d)) = true := by
  interval_cases d <;> decide

theorem natChars_all_digit (n : Nat) : ∀ c ∈ natChars n, pyIsDigit c = true := by
  induction n using Nat.strong_induction_on with
  | _ n ih =>
    by_cases h : n < 10
    · rw [natChars_lt n h]
      intro c hc
      simp at hc
      subst hc
      exact digitChar_pyIsDigit n h
    · rw [natChars_ge n h]
      intro c hc
      rw [List.mem_append] at hc
      rcases hc with hc | hc
      · exact ih (n / 10) (Nat.div_lt_self (by omega) (by omega)) c hc
      · simp at hc
        subst hc
        exact digitChar_pyIsDigit (n % 10) (Nat.mod_lt n (by omega))

theorem natChars_ne_nil (n : Nat) : natChars n ≠ [] := by
  by_cases h : n < 10
  · rw [natChars_lt n h]; simp
  · rw [natChars_ge n h]; simp

theorem digitsVal_append_last (l : List Char) (c : Char) :
    digitsVal (l ++ [c]) = digitsVal l * 10 + (c.toNat - 48) := by
  simp [digitsVal, List.foldl_append]

theorem digitsVal_natChars (n : Nat) : digitsVal (natChars n) = n := by
  induction n using Nat.strong_induction_on with
  | _ n ih =>
    by_cases h : n < 10
    · rw [natChars_lt n h]
      simp [digitsVal]
      rw [digitChar_toNat n h]
      omega
    · rw [natChars_ge n h, digitsVal_append_last,
          ih (n / 10) (Nat.div_lt_self (by omega) (by omega)),
          digitChar_toNat (n % 10) (Nat.mod_lt n (by omega))]
      omega

theorem takeWhile_append_all {α : Type} (p : α → Bool) (l1 l2 : List α)
    (h1 : ∀ c ∈ l1, p c = true)
    (h2 : match l2 with | [] => True | c :: _ => p c = false) :
    (l1 ++ l2).takeWhile p = l1 ∧ (l1 ++ l2).dropWhile p = l2 := by
  induction l1 with
  | nil =>
    simp only [List.nil_append]
    cases l2 with
    | nil => simp
    | cons c t => simp_all [List.takeWhile_cons, List.dropWhile_cons]
  | cons a l ih =>
    have ha : p a = true := h1 a (by simp)
    have := ih (fun c hc => h1 c (by simp [hc]))
    simp [List.takeWhile_cons, List.dropWhile_cons, ha, this.1, this.2]

theorem parseIntDigits_natChars (neg : Bool) (m : Nat) (rest : List Char)
    (hb : intBoundary rest) :
    parseIntDigits neg (natChars m ++ rest)
      = some (if neg then -(m : Int) else (m : Int), rest) := by
  have htd := takeWhile_append_all pyIsDigit (natChars m) rest
    (natChars_all_digit m)
    (by cases rest with
        | nil => trivial
        | cons c t => exact (intBoundary.eq_2 c t ▸ hb).1)
  unfold parseIntDigits
  rw [htd.1, htd.2]
  have hne : (natChars m).isEmpty = false := by
    cases h : natChars m with
    | nil => exact absurd h (natChars_ne_nil m)
    | cons a t => rfl
  simp only [hne, Bool.false_eq_true, if_false, digitsVal_natChars]
  cases rest with
  | nil => rfl
  | cons c t =>
    have hb' := intBoundary.eq_2 c t ▸ hb
    simp [hb'.2.1, hb'.2.2.1, hb'.2.2.2]

theorem parseIntToken_intChars (n : Int) (rest : List Char)
    (hb : intBoundary rest) :
    parseIntToken (intChars n ++ rest) = some (n, rest) := by
  unfold intChars
  by_cases hneg : n < 0
  · simp only [hneg, if_true]
    show parseIntToken ('-' :: (natChars n.natAbs ++ rest)) = _
    simp only [parseIntToken]
    rw [if_pos trivial, parseIntDigits_natChars true n.natAbs rest hb]
    have h2 : -((n.natAbs : Int)) = n := by omega
    simp only [if_pos rfl, h2]
    rw [if_pos trivial]
  · simp only [hneg, if_false]
    cases h : natChars n.natAbs with
    | nil => exact absurd h (natChars_ne_nil n.natAbs)
    | cons a t =>
      have ha : pyIsDigit a = true := natChars_all_digit n.natAbs a (by rw [h]; simp)
      have hane : a ≠ '-' := by
        intro he
        subst he
        exact absurd ha (by decide)
      show parseIntToken ((a :: t) ++ rest) = _
      simp only [List.cons_append, parseIntToken, if_neg hane]
      rw [← List.cons_append, ← h, parseIntDigits_natChars false n.natAbs rest hb]
      have h2 : ((n.natAbs : Int)) = n := by omega
      simp only [Bool.false_eq_true, if_false, h2]

/- String escaping/parsing round trip -/

theorem isHexChar_hexDigitChar (m : Nat) (h : m < 16) :
    isHexChar (hexDigitChar m) = true := by
  interval_cases m <;> decide

theorem hexVal_hexDigitChar (m : Nat) (h : m < 16) :
    hexVal (hexDigitChar m) = m := by
  interval_cases m <;> decide

theorem parseStringBody_escape (s rest : List Char) :
    parseStringBody (escapeString s ++ '"' :: rest) = some (s, rest) := by
  induction s with
  | nil =>
    simp only [escapeString, List.flatMap_nil, List.nil_append]
    rw [parseStringBody.eq_def]
    rfl
  | cons c s ih =>
    have hstep : escapeString (c :: s) = escapeChar c ++ escapeString s := by
      simp [escapeString]
    rw [hstep, List.append_assoc]
    by_cases h1 : c = '"'
    · subst h1
      rw [show escapeChar '"' = ['\\', '"'] from rfl]
      simp only [List.cons_append, List.nil_append]
      rw [parseStringBody.eq_def]
      simp +decide [ih, unescapeChar]
    · by_cases h2 : c = '\\'
      · subst h2
        rw [show escapeChar '\\' = ['\\', '\\'] from rfl]
        simp only [List.cons_append, List.nil_append]
        rw [parseStringBody.eq_def]
        simp +decide [ih, unescapeChar]
      · by_cases h3 : c = '\x08'
        · subst h3
          rw [show escapeChar '\x08' = ['\\', 'b'] from rfl]
          simp only [List.cons_append, List.nil_append]
          rw [parseStringBody.eq_def]
          simp +decide [ih, unescapeChar]
        · by_cases h4 : c = '\x0c'
          · subst h4
            rw [show escapeChar '\x0c' = ['\\', 'f'] from rfl]
            simp only [List.cons_append, List.nil_append]
            rw [parseStringBody.eq_def]
            simp +decide [ih, unescapeChar]
          · by_cases h5 : c = '\n'
            · subst h5
              rw [show escapeChar '\n' = ['\\', 'n'] from rfl]
              simp only [List.cons_append, List.nil_append]
              rw [parseStringBody.eq_def]
              simp +decide [ih, unescapeChar]
            · by_cases h6 : c = '\x0d'
              · subst h6
                rw [show escapeChar '\x0d' = ['\\', 'r'] from rfl]
                simp only [List.cons_append, List.nil_append]
                rw [parseStringBody.eq_def]
                simp +decide [ih, unescapeChar]
              · by_cases h7 : c = '\t'
                · subst h7
                  rw [show escapeChar '\t' = ['\\', 't'] from rfl]
                  simp only [List.cons_append, List.nil_append]
                  rw [parseStringBody.eq_def]
                  simp +decide [ih, unescapeChar]
                · by_cases h8 : c.toNat < 32
                  · have hd : c.toNat / 16 < 16 := by omega
                    have hm : c.toNat % 16 < 16 := by omega
                    have hx1 : isHexChar (hexDigitChar (c.toNat / 16)) = true :=
                      isHexChar_hexDigitChar _ hd
                    have hx2 : isHexChar (hexDigitChar (c.toNat % 16)) = true :=
                      isHexChar_hexDigitChar _ hm
                    have hval : ((hexVal '0' * 16 + hexVal '0') * 16 +
                        hexVal (hexDigitChar (c.toNat / 16))) * 16 +
                        hexVal (hexDigitChar (c.toNat % 16)) = c.toNat := by
                      rw [hexVal_hexDigitChar _ hd, hexVal_hexDigitChar _ hm,
                          show hexVal '0' = 0 from rfl]
                      omega
                    rw [escapeChar, if_neg h1, if_neg h2, if_neg h3, if_neg h4,
                        if_neg h5, if_neg h6, if_neg h7, if_pos h8]
                    simp only [List.cons_append, List.nil_append]
                    rw [parseStringBody.eq_def]
                    simp +decide [ih, hval, Char.ofNat_toNat, hx1, hx2]
                  · rw [escapeChar, if_neg h1, if_neg h2, if_neg h3, if_neg h4,
                        if_neg h5, if_neg h6, if_neg h7, if_neg h8]
                    simp only [List.cons_append, List.nil_append]
                    rw [parseStringBody.eq_def]
                    simp +decide [ih, h1, h2, h8]

/- Character-class facts used by the value round trip -/

theorem pyIsDigit_bounds {c : Char} (h : pyIsDigit c = true) :
    48 ≤ c.toNat ∧ c.toNat ≤ 57 := by
  simpa [pyIsDigit, Bool.and_eq_true, decide_eq_true_eq] using h

theorem digit_ne {c : Char} (h : pyIsDigit c = true) (d : Char)
    (hd : pyIsDigit d = false) : c ≠ d := by
  intro he
  subst he
  rw [h] at hd
  exact absurd hd (by decide)

theorem digit_not_ws {c : Char} (h : pyIsDigit c = true) : jsonIsWs c = false := by
  cases hw : jsonIsWs c
  · rfl
  · exfalso
    have hb := pyIsDigit_bounds h
    simp only [jsonIsWs, Bool.or_eq_true, decide_eq_true_eq] at hw
    rcases hw with ((he | he) | he) | he <;> (subst he; revert hb; decide)

theorem intChars_head (n : Int) :
    ∃ c t, intChars n = c :: t ∧ (c = '-' ∨ pyIsDigit c = true) := by
  unfold intChars
  by_cases hneg : n < 0
  · exact ⟨'-', natChars n.natAbs, by simp [hneg], Or.inl rfl⟩
  · cases h : natChars n.natAbs with
    | nil => exact absurd h (natChars_ne_nil n.natAbs)
    | cons a t =>
      refine ⟨a, t, by simp [hneg, h], Or.inr ?_⟩
      exact natChars_all_digit n.natAbs a (by rw [h]; simp)

theorem intChars_head_facts (n : Int) :
    ∃ c t, intChars n = c :: t ∧ jsonIsWs c = false ∧ c ≠ ']' ∧ c ≠ '\x7d' ∧
      c ≠ 'n' ∧ c ≠ 't' ∧ c ≠ 'f' ∧ c ≠ '"' ∧ c ≠ '[' ∧ c ≠ '\x7b' := by
  obtain ⟨c, t, hct, hc⟩ := intChars_head n
  rcases hc with hc | hc
  · subst hc
    exact ⟨'-', t, hct, by decide, by decide, by decide, by decide, by decide,
           by decide, by decide, by decide, by decide⟩
  · exact ⟨c, t, hct, digit_not_ws hc, digit_ne hc ']' (by decide),
      digit_ne hc '\x7d' (by decide), digit_ne hc 'n' (by decide),
      digit_ne hc 't' (by decide), digit_ne hc 'f' (by decide),
      digit_ne hc '"' (by decide), digit_ne hc '[' (by decide),
      digit_ne hc '\x7b' (by decide)⟩

theorem jsonDump_head (j : Json) :
    ∃ c t, jsonDump j = c :: t ∧ jsonIsWs c = false ∧ c ≠ ']' ∧ c ≠ '\x7d' := by
  cases j with
  | null => exact ⟨'n', ['u', 'l', 'l'], by simp [jsonDump], by decide, by decide, by decide⟩
  | bool b =>
    cases b
    · exact ⟨'f', ['a', 'l', 's', 'e'], by simp [jsonDump], by decide, by decide, by decide⟩
    · exact ⟨'t', ['r', 'u', 'e'], by simp [jsonDump], by decide, by decide, by decide⟩
  | num n =>
    obtain ⟨c, t, hct, hws, h1, h2, _⟩ := intChars_head_facts n
    exact ⟨c, t, by simp [jsonDump, hct], hws, h1, h2⟩
  | str s =>
    exact ⟨'"', escapeString s ++ ['"'], by simp [jsonDump], by decide, by decide, by decide⟩
  | arr items =>
    exact ⟨'[', jsonDumpItems items ++ [']'], by simp [jsonDump], by decide, by decide, by decide⟩
  | obj members =>
    exact ⟨'\x7b', jsonDumpMembers members ++ ['\x7d'], by simp [jsonDump], by decide, by decide, by decide⟩

theorem jsonDumpItems_cons (x : Json) (xs : List Json) :
    ∃ t, jsonDumpItems (x :: xs) = jsonDump x ++ t ∧
      (xs = [] → t = []) ∧
      (xs ≠ [] → t = ',' :: ' ' :: jsonDumpItems xs) := by
  cases xs with
  | nil => exact ⟨[], by simp [jsonDumpItems], fun _ => rfl, fun h => absurd rfl h⟩
  | cons y ys =>
    exact ⟨',' :: ' ' :: jsonDumpItems (y :: ys), by simp [jsonDumpItems],
      fun h => absurd h (by simp), fun _ => rfl⟩

theorem jsonDumpMembers_cons (k : List Char) (v : Json) (ms : List (List Char × Json)) :
    ∃ t, jsonDumpMembers ((k, v) :: ms) =
        '"' :: escapeString k ++ '"' :: ':' :: ' ' :: jsonDump v ++ t ∧
      (ms = [] → t = []) ∧
      (ms ≠ [] → t = ',' :: ' ' :: jsonDumpMembers ms) := by
  cases ms with
  | nil =>
    refine ⟨[], ?_, fun _ => rfl, fun h => absurd rfl h⟩
    simp [jsonDumpMembers]
  | cons m ms' =>
    refine ⟨',' :: ' ' :: jsonDumpMembers (m :: ms'), ?_,
      fun h => absurd h (by simp), fun _ => rfl⟩
    simp [jsonDumpMembers]

theorem jsonDump_length_pos (j : Json) : 0 < (jsonDump j).length := by
  obtain ⟨c, t, hct, _⟩ := jsonDump_head j
  rw [hct]
  simp

theorem dropWhile_jsonDump_append (j : Json) (X : List Char) :
    List.dropWhile jsonIsWs (jsonDump j ++ X) = jsonDump j ++ X := by
  obtain ⟨c, t, hct, hws, _, _⟩ := jsonDump_head j
  rw [hct]
  simp [List.dropWhile_cons, hws]

theorem parse_dump_master (fuel : Nat) :
    (∀ j rest, (jsonDump j).length + 1 ≤ fuel → intBoundary rest →
      parseValue fuel (jsonDump j ++ rest) = some (j, rest)) ∧
    (∀ l rest, l ≠ [] → (jsonDumpItems l).length + 2 ≤ fuel →
      parseItems fuel (jsonDumpItems l ++ ']' :: rest) = some (.arr l, rest)) ∧
    (∀ m rest, m ≠ [] → (jsonDumpMembers m).length + 2 ≤ fuel →
      parseMembers fuel (jsonDumpMembers m ++ '\x7d' :: rest) = some (.obj m, rest)) := by
  induction fuel with
  | zero =>
    exact ⟨fun j rest h _ => absurd h (by omega),
           fun l rest _ h => absurd h (by omega),
           fun m rest _ h => absurd h (by omega)⟩
  | succ fuel ih =>
    obtain ⟨ihv, ihi, ihm⟩ := ih
    refine ⟨?_, ?_, ?_⟩
    · intro j rest hlen hb
      cases j with
      | null =>
        rw [show jsonDump Json.null = ['n', 'u', 'l', 'l'] from by simp [jsonDump]]
        rw [parseValue.eq_def]
        simp +decide [List.cons_append, List.dropWhile_cons]
      | bool b =>
        cases b
        · rw [show jsonDump (Json.bool false) = ['f', 'a', 'l', 's', 'e'] from by
            simp [jsonDump]]
          rw [parseValue.eq_def]
          simp +decide [List.cons_append, List.dropWhile_cons]
        · rw [show jsonDump (Json.bool true) = ['t', 'r', 'u', 'e'] from by
            simp [jsonDump]]
          rw [parseValue.eq_def]
          simp +decide [List.cons_append, List.dropWhile_cons]
      | num n =>
        obtain ⟨c, t, hct, hws, hbr1, hbr2, hn, ht, hf, hq, hlb, hob⟩ :=
          intChars_head_facts n
        rw [show jsonDump (Json.num n) = intChars n from by simp [jsonDump]]
        rw [parseValue.eq_def, hct]
        simp +decide [List.cons_append, List.dropWhile_cons, hws, hn, ht, hf, hq,
          hlb, hob]
        rw [← List.cons_append, ← hct, parseIntToken_intChars n rest hb]
      | str s =>
        rw [show jsonDump (Json.str s) = '"' :: escapeString s ++ ['"'] from by
          simp [jsonDump]]
        rw [parseValue.eq_def]
        simp +decide [List.cons_append, List.append_assoc, List.singleton_append,
          List.dropWhile_cons, parseStringBody_escape]
      | arr items =>
        have hjd : jsonDump (Json.arr items) = '[' :: jsonDumpItems items ++ [']'] := by
          simp [jsonDump]
        rw [hjd]
        cases items with
        | nil =>
          rw [parseValue.eq_def]
          simp +decide [jsonDumpItems, List.cons_append, List.singleton_append,
            List.dropWhile_cons]
        | cons x xs =>
          obtain ⟨c, t, hct, hws, hbr, _⟩ := jsonDump_head x
          obtain ⟨tail, htail, _, _⟩ := jsonDumpItems_cons x xs
          have hlen2 : (jsonDumpItems (x :: xs)).length + 2 ≤ fuel := by
            rw [hjd] at hlen
            simp [List.length_append] at hlen
            omega
          have hcons : jsonDumpItems (x :: xs) = c :: (t ++ tail) := by
            rw [htail, hct]
            simp
          have hi : parseItems fuel (c :: (t ++ (tail ++ ']' :: rest)))
              = some (Json.arr (x :: xs), rest) := by
            have h0 := ihi (x :: xs) rest (by simp) hlen2
            rw [hcons] at h0
            simpa using h0
          rw [parseValue.eq_def, hcons]
          simp +decide [List.cons_append, List.append_assoc, List.nil_append,
            List.singleton_append, List.dropWhile_cons, hws, hbr, hi]
      | obj members =>
        have hjd : jsonDump (Json.obj members)
            = '\x7b' :: jsonDumpMembers members ++ ['\x7d'] := by
          simp [jsonDump]
        rw [hjd]
        cases members with
        | nil =>
          rw [parseValue.eq_def]
          simp +decide [jsonDumpMembers, List.cons_append, List.singleton_append,
            List.dropWhile_cons]
        | cons m ms =>
          obtain ⟨k, v⟩ := m
          obtain ⟨tail, htail, _, _⟩ := jsonDumpMembers_cons k v ms
          have hlen2 : (jsonDumpMembers ((k, v) :: ms)).length + 2 ≤ fuel := by
            rw [hjd] at hlen
            simp [List.length_append] at hlen
            omega
          have hcons : jsonDumpMembers ((k, v) :: ms)
              = '"' :: (escapeString k ++ '"' :: ':' :: ' ' :: (jsonDump v ++ tail)) := by
            rw [htail]
            simp
          have hm2 : parseMembers fuel
              ('"' :: (escapeString k ++ '"' :: ':' :: ' ' :: (jsonDump v ++ (tail ++ '\x7d' :: rest))))
              = some (Json.obj ((k, v) :: ms), rest) := by
            have h0 := ihm ((k, v) :: ms) rest (by simp) hlen2
            rw [hcons] at h0
            simpa using h0
          rw [parseValue.eq_def, hcons]
          simp +decide [List.cons_append, List.append_assoc, List.nil_append,
            List.singleton_append, List.dropWhile_cons, hm2]
    · intro l rest hne hlen
      cases l with
      | nil => exact absurd rfl hne
      | cons x xs =>
        cases xs with
        | nil =>
          have hone : jsonDumpItems [x] = jsonDump x := by simp [jsonDumpItems]
          have hlen2 : (jsonDump x).length + 1 ≤ fuel := by
            rw [hone] at hlen
            omega
          have hx := ihv x (']' :: rest) hlen2
            ⟨by decide, by decide, by decide, by decide⟩
          rw [parseItems.eq_def, hone]
          simp +decide [List.dropWhile_cons, hx]
        | cons y ys =>
          have hsplit : jsonDumpItems (x :: y :: ys)
              = jsonDump x ++ ',' :: ' ' :: jsonDumpItems (y :: ys) := by
            simp [jsonDumpItems]
          have hlen2 : (jsonDump x).length + 1 ≤ fuel := by
            rw [hsplit] at hlen
            simp [List.length_append] at hlen
            omega
          have hlen3 : (jsonDumpItems (y :: ys)).length + 2 ≤ fuel := by
            rw [hsplit] at hlen
            simp [List.length_append] at hlen
            have := jsonDump_length_pos x
            omega
          have hx := ihv x (',' :: ' ' :: (jsonDumpItems (y :: ys) ++ ']' :: rest)) hlen2
            ⟨by decide, by decide, by decide, by decide⟩
          have hdrop : List.dropWhile jsonIsWs (jsonDumpItems (y :: ys) ++ ']' :: rest)
              = jsonDumpItems (y :: ys) ++ ']' :: rest := by
            obtain ⟨tail2, htail2, _, _⟩ := jsonDumpItems_cons y ys
            rw [htail2, List.append_assoc]
            exact dropWhile_jsonDump_append y (tail2 ++ ']' :: rest)
          have hi := ihi (y :: ys) rest (by simp) hlen3
          rw [parseItems.eq_def, hsplit]
          simp +decide [List.append_assoc, List.cons_append, List.dropWhile_cons,
            hx, hdrop, hi]
    · intro m rest hne hlen
      cases m with
      | nil => exact absurd rfl hne
      | cons m0 ms =>
        obtain ⟨k, v⟩ := m0
        obtain ⟨tail, htail, htnil, htcons⟩ := jsonDumpMembers_cons k v ms
        have hlenv : (jsonDump v).length + 1 ≤ fuel := by
          rw [htail] at hlen
          simp [List.length_append] at hlen
          omega
        cases ms with
        | nil =>
          have htl : tail = [] := htnil rfl
          subst htl
          have hx := ihv v ('\x7d' :: rest) hlenv
            ⟨by decide, by decide, by decide, by decide⟩
          rw [parseMembers.eq_def, htail]
          simp +decide [List.append_assoc, List.cons_append, List.nil_append,
            List.dropWhile_cons, parseStringBody_escape, dropWhile_jsonDump_append, hx]
        | cons m2 ms2 =>
          obtain ⟨k2, v2⟩ := m2
          have htl : tail = ',' :: ' ' :: jsonDumpMembers ((k2, v2) :: ms2) :=
            htcons (by simp)
          subst htl
          have hlenm : (jsonDumpMembers ((k2, v2) :: ms2)).length + 2 ≤ fuel := by
            rw [htail] at hlen
            simp [List.length_append] at hlen
            have := jsonDump_length_pos v
            omega
          have hx := ihv v
            (',' :: ' ' :: (jsonDumpMembers ((k2, v2) :: ms2) ++ '\x7d' :: rest)) hlenv
            ⟨by decide, by decide, by decide, by decide⟩
          have hdrop : List.dropWhile jsonIsWs
                (jsonDumpMembers ((k2, v2) :: ms2) ++ '\x7d' :: rest)
              = jsonDumpMembers ((k2, v2) :: ms2) ++ '\x7d' :: rest := by
            obtain ⟨tail2, htail2, _, _⟩ := jsonDumpMembers_cons k2 v2 ms2
            rw [htail2]
            simp +decide [List.cons_append, List.dropWhile_cons]
          have hm2 := ihm ((k2, v2) :: ms2) rest (by simp) hlenm
          rw [parseMembers.eq_def, htail]
          simp +decide [List.append_assoc, List.cons_append, List.nil_append,
            List.dropWhile_cons, parseStringBody_escape, dropWhile_jsonDump_append,
            hx, hdrop, hm2]

theorem jsonLoads_jsonDump (j : Json) : jsonLoads (jsonDump j) = some j := by
  have h := (parse_dump_master ((jsonDump j).length + 1)).1 j [] (by omega) trivial
  rw [List.append_nil] at h
  unfold jsonLoads
  rw [h]
  simp

theorem jsonDumpStr_ne_empty (j : Json) : jsonDumpStr j ≠ "" := by
  intro h
  have hd : (jsonDumpStr j).data = ("" : String).data := congrArg String.data h
  rw [show (jsonDumpStr j).data = jsonDump j from rfl] at hd
  have := jsonDump_length_pos j
  rw [hd] at this
  simp at this

theorem decodeScriptJson_dump (j : Json) :
    decodeScriptJson (some (jsonDumpStr j)) = some j := by
  show (if jsonDumpStr j = "" then none else jsonLoads (jsonDumpStr j).data) = some j
  rw [if_neg (jsonDumpStr_ne_empty j)]
  rw [show (jsonDumpStr j).data = jsonDump j from rfl]
  exact jsonLoads_jsonDump j

/- Computation lemmas for the background task -/

theorem pfs_extract_raises (gr : GenOutcome) :
    process_file_sync .raises gr = ⟨[⟨"script_failed", none⟩], false⟩ := rfl

theorem pfs_extracted (text : String) (gr : GenOutcome) :
    process_file_sync (.extracted text) gr
      = (if pyBlank text then ⟨[⟨"script_failed", none⟩], false⟩
         else
           match gr with
           | .raises => ⟨[⟨"script_failed", none⟩], true⟩
           | .returns none => ⟨[⟨"script_failed", none⟩], true⟩
           | .returns (some j) =>
             if jsonTruthy j then ⟨[⟨"script_ready", some (jsonDumpStr j)⟩], true⟩
             else ⟨[⟨"script_failed", none⟩], true⟩) := rfl

theorem pfs_blank (text : String) (gr : GenOutcome) (h : pyBlank text = true) :
    process_file_sync (.extracted text) gr = ⟨[⟨"script_failed", none⟩], false⟩ := by
  rw [pfs_extracted, if_pos h]

theorem pfs_gen_raises (text : String) (h : pyBlank text = false) :
    process_file_sync (.extracted text) .raises = ⟨[⟨"script_failed", none⟩], true⟩ := by
  rw [pfs_extracted, if_neg (by simp [h])]

theorem pfs_gen_none (text : String) (h : pyBlank text = false) :
    process_file_sync (.extracted text) (.returns none)
      = ⟨[⟨"script_failed", none⟩], true⟩ := by
  rw [pfs_extracted, if_neg (by simp [h])]

theorem pfs_gen_some (text : String) (j : Json) (h : pyBlank text = false) :
    process_file_sync (.extracted text) (.returns (some j))
      = if jsonTruthy j then ⟨[⟨"script_ready", some (jsonDumpStr j)⟩], true⟩
        else ⟨[⟨"script_failed", none⟩], true⟩ := by
  rw [pfs_extracted, if_neg (by simp [h])]

/- Characterization of `generate_script` (shared by the claims about
error handling in the AI layer) -/

theorem generate_script_some_iff (key : Option String) (api : ApiOutcome) (j : Json) :
    generate_script key api = some j ↔
      (pyTruthyStrOpt key = true ∧ ∃ raw members slides,
        api = .responds raw ∧
        jsonLoads (postprocessResponse raw.data) = some (.obj members) ∧
        hasKeyMember members "summary".data = true ∧
        hasKeyMember members "slides".data = true ∧
        lookupMember members "slides".data = some (.arr slides) ∧
        slides ≠ [] ∧ j = .obj members) := by
  constructor
  · intro hg
    unfold generate_script at hg
    by_cases hk : pyTruthyStrOpt key = false
    · rw [if_pos hk] at hg
      exact absurd hg (by simp)
    · rw [if_neg hk] at hg
      have hk2 : pyTruthyStrOpt key = true := by
        cases h2 : pyTruthyStrOpt key
        · exact absurd h2 hk
        · rfl
      cases api with
      | raises => simp at hg
      | responds raw =>
        have hg2 : (match jsonLoads (postprocessResponse raw.data) with
            | none => none
            | some (Json.obj members) =>
              if ¬(hasKeyMember members "summary".data)
                  ∨ ¬(hasKeyMember members "slides".data) then none
              else
                match lookupMember members "slides".data with
                | some (Json.arr slides) =>
                  if slides.isEmpty then none else some (Json.obj members)
                | _ => none
            | some _ => none) = some j := hg
        clear hg
        cases hjl : jsonLoads (postprocessResponse raw.data) with
        | none => rw [hjl] at hg2; simp at hg2
        | some script =>
          rw [hjl] at hg2
          cases script with
          | obj members =>
            have hg3 : (if ¬(hasKeyMember members "summary".data)
                  ∨ ¬(hasKeyMember members "slides".data) then none
                else
                  match lookupMember members "slides".data with
                  | some (Json.arr slides) =>
                    if slides.isEmpty then none else some (Json.obj members)
                  | _ => none) = some j := hg2
            by_cases hkeys : ¬(hasKeyMember members "summary".data)
                ∨ ¬(hasKeyMember members "slides".data)
            · rw [if_pos hkeys] at hg3
              simp at hg3
            · rw [if_neg hkeys] at hg3
              push_neg at hkeys
              cases hlk : lookupMember members "slides".data with
              | none => rw [hlk] at hg3; simp at hg3
              | some sl =>
                rw [hlk] at hg3
                cases sl with
                | arr slides =>
                  have hg4 : (if slides.isEmpty then none
                      else some (Json.obj members)) = some j := hg3
                  by_cases hsl : slides.isEmpty
                  · rw [if_pos hsl] at hg4
                    simp at hg4
                  · rw [if_neg hsl] at hg4
                    simp only [Option.some.injEq] at hg4
                    refine ⟨hk2, raw, members, slides, rfl, hjl,
                      ?_, ?_, hlk, ?_, hg4.symm⟩
                    · exact hkeys.1
                    · exact hkeys.2
                    · intro hnil
                      subst hnil
                      exact hsl rfl
                | null => simp at hg3
                | bool b => simp at hg3
                | num n => simp at hg3
                | str s2 => simp at hg3
                | obj o2 => simp at hg3
          | null => simp at hg2
          | bool b => simp at hg2
          | num n => simp at hg2
          | str s2 => simp at hg2
          | arr a2 => simp at hg2
  · rintro ⟨hk, raw, members, slides, hapi, hjl, hs1, hs2, hlk, hsl, hj⟩
    subst hapi
    subst hj
    unfold generate_script
    rw [if_neg (by simp [hk])]
    have hsl2 : slides.isEmpty = false := by
      cases h2 : slides.isEmpty
      · rfl
      · exact absurd (List.isEmpty_iff.mp h2) hsl
    have hbody : (match jsonLoads (postprocessResponse raw.data) with
        | none => none
        | some (Json.obj members) =>
          if ¬(hasKeyMember members "summary".data)
              ∨ ¬(hasKeyMember members "slides".data) then none
          else
            match lookupMember members "slides".data with
            | some (Json.arr slides) =>
              if slides.isEmpty then none else some (Json.obj members)
            | _ => none
        | some _ => none) = some (Json.obj members) := by
      rw [hjl]
      show (if ¬(hasKeyMember members "summary".data)
            ∨ ¬(hasKeyMember members "slides".data) then none
          else
            match lookupMember members "slides".data with
            | some (Json.arr slides) =>
              if slides.isEmpty then none else some (Json.obj members)
            | _ => none) = some (Json.obj members)
      rw [if_neg (by simp [hs1, hs2]), hlk]
      show (if slides.isEmpty then none else some (Json.obj members))
          = some (Json.obj members)
      rw [hsl2]
      simp
    exact hbody

/-- C5: for a file whose extracted text is empty or whitespace-only, the
background task performs exactly the `script_failed` transition, stores
no script, and never calls the Gemini generator — whatever the
generator oracle would have answered. -/
theorem claim_C5_blank_text_fails_without_ai :
    ∀ (text : String) (gr : GenOutcome),
      pyBlank text = true →
      process_file_sync (.extracted text) gr
        = ⟨[⟨"script_failed", none⟩], false⟩ :=
  fun text gr h => pfs_blank text gr h

/-- Witness for C5 at the concrete whitespace-only text `"  \n"`. -/
theorem claim_C5_blank_text_fails_without_ai_witness :
    pyBlank "  \n" = true ∧
    process_file_sync (.extracted "  \n") .raises
      = ⟨[⟨"script_failed", none⟩], false⟩ :=
  ⟨by decide, claim_C5_blank_text_fails_without_ai "  \n" .raises (by decide)⟩

/-- C2: every run of the background task performs exactly one status
update; it is terminal (never `"processing"`); it is
`script_ready`-with-the-serialized-script exactly when extraction
produced non-blank text and the generator returned a (truthy) script,
and `script_failed` with no stored script on every other path
(exception in extraction, blank text, generator exception, generator
returning `None` or a falsy value); and every script that
`generate_script` can actually return is truthy. -/
theorem claim_C2_single_terminal_update :
    (∀ (er : ExtractOutcome) (gr : GenOutcome),
      (process_file_sync er gr).updates.length = 1 ∧
      (∀ u ∈ (process_file_sync er gr).updates,
        (u.status = "script_ready" ∨ u.status = "script_failed") ∧
        u.status ≠ "processing") ∧
      (∀ text j, er = .extracted text → pyBlank text = false →
        gr = .returns (some j) → jsonTruthy j = true →
        (process_file_sync er gr).updates
          = [⟨"script_ready", some (jsonDumpStr j)⟩]) ∧
      ((¬ ∃ text j, er = .extracted text ∧ pyBlank text = false ∧
          gr = .returns (some j) ∧ jsonTruthy j = true) →
        (process_file_sync er gr).updates = [⟨"script_failed", none⟩])) ∧
    (∀ (key : Option String) (api : ApiOutcome) (j : Json),
      generate_script key api = some j → jsonTruthy j = true) := by
  constructor
  · intro er gr
    cases er with
    | raises =>
      rw [pfs_extract_raises]
      refine ⟨rfl, ?_, ?_, fun _ => rfl⟩
      · intro u hu
        simp at hu
        subst hu
        exact ⟨Or.inr rfl, by decide⟩
      · intro text j he
        exact absurd he (by simp)
    | extracted text =>
      by_cases hb : pyBlank text = true
      · rw [pfs_blank text gr hb]
        refine ⟨rfl, ?_, ?_, fun _ => rfl⟩
        · intro u hu
          simp at hu
          subst hu
          exact ⟨Or.inr rfl, by decide⟩
        · intro text2 j he hnb
          injection he with he2
          subst he2
          rw [hb] at hnb
          exact absurd hnb (by decide)
      · have hb2 : pyBlank text = false := by
          cases h2 : pyBlank text
          · rfl
          · exact absurd h2 hb
        cases gr with
        | raises =>
          rw [pfs_gen_raises text hb2]
          refine ⟨rfl, ?_, ?_, fun _ => rfl⟩
          · intro u hu
            simp at hu
            subst hu
            exact ⟨Or.inr rfl, by decide⟩
          · intro text2 j _ _ hg
            exact absurd hg (by simp)
        | returns sc =>
          cases sc with
          | none =>
            rw [pfs_gen_none text hb2]
            refine ⟨rfl, ?_, ?_, fun _ => rfl⟩
            · intro u hu
              simp at hu
              subst hu
              exact ⟨Or.inr rfl, by decide⟩
            · intro text2 j _ _ hg
              simp at hg
          | some j =>
            rw [pfs_gen_some text j hb2]
            by_cases ht : jsonTruthy j = true
            · rw [if_pos ht]
              refine ⟨rfl, ?_, ?_, ?_⟩
              · intro u hu
                simp at hu
                subst hu
                refine ⟨Or.inl rfl, ?_⟩
                show ("script_ready" : String) ≠ "processing"
                decide
              · intro text2 j2 he hnb hg _
                injection hg with hg2
                injection hg2 with hg3
                subst hg3
                rfl
              · intro hno
                exact absurd ⟨text, j, rfl, hb2, rfl, ht⟩ hno
            · rw [if_neg ht]
              refine ⟨rfl, ?_, ?_, fun _ => rfl⟩
              · intro u hu
                simp at hu
                subst hu
                exact ⟨Or.inr rfl, by decide⟩
              · intro text2 j2 he hnb hg htr
                injection hg with hg2
                injection hg2 with hg3
                subst hg3
                exact absurd htr ht
  · intro key api j hg
    obtain ⟨_, raw, members, slides, _, _, hs1, _, _, _, hj⟩ :=
      (generate_script_some_iff key api j).1 hg
    subst hj
    cases members with
    | nil => simp [hasKeyMember] at hs1
    | cons a l => simp [jsonTruthy]

/-- Witness for C2: a run with non-blank text and a script from the
generator performs exactly the `script_ready` write with the
serialized script. -/
theorem claim_C2_single_terminal_update_witness :
    (process_file_sync (.extracted "hello")
        (.returns (some (Json.obj [("a".data, Json.null)])))).updates
      = [⟨"script_ready", some (jsonDumpStr (Json.obj [("a".data, Json.null)]))⟩] :=
  (claim_C2_single_terminal_update.1 (.extracted "hello")
      (.returns (some (Json.obj [("a".data, Json.null)])))).2.2.1
    "hello" (Json.obj [("a".data, Json.null)]) rfl (by decide) rfl (by decide)

/-- C4: `generate_script` is a total function of its oracles (no failure
is escalated as an exception), and it returns a script exactly when
the credential is truthy, the API call answered, the post-processed
response parses as a JSON object carrying both the `"summary"` and
`"slides"` keys, and the `"slides"` value is a non-empty list; in
every other situation (missing credential, API exception, parse
failure, missing keys, non-list or empty slides) it returns `none`. -/
theorem claim_C4_generate_script_guarded :
    ∀ (key : Option String) (api : ApiOutcome) (j : Json),
      generate_script key api = some j ↔
        (pyTruthyStrOpt key = true ∧ ∃ raw members slides,
          api = .responds raw ∧
          jsonLoads (postprocessResponse raw.data) = some (.obj members) ∧
          hasKeyMember members "summary".data = true ∧
          hasKeyMember members "slides".data = true ∧
          lookupMember members "slides".data = some (.arr slides) ∧
          slides ≠ [] ∧ j = .obj members) :=
  fun key api j => generate_script_some_iff key api j

/-- Witness for C4: a concrete well-formed response is accepted, and the
returned value is the parsed object itself. -/
theorem claim_C4_generate_script_guarded_witness :
    generate_script (some "k")
        (.responds "\x7b\"summary\": \"s\", \"slides\": [1]\x7d")
      = some (Json.obj [("summary".data, Json.str "s".data),
          ("slides".data, Json.arr [Json.num 1])]) :=
  (claim_C4_generate_script_guarded (some "k")
      (.responds "\x7b\"summary\": \"s\", \"slides\": [1]\x7d")
      (Json.obj [("summary".data, Json.str "s".data),
        ("slides".data, Json.arr [Json.num 1])])).2
    ⟨by decide, "\x7b\"summary\": \"s\", \"slides\": [1]\x7d",
      [("summary".data, Json.str "s".data), ("slides".data, Json.arr [Json.num 1])],
      [Json.num 1], rfl, by rfl, by rfl, by rfl, by rfl, by simp, rfl⟩

/-- C3: an upload whose filename extension (case-folded) is not in
`ALLOWED_EXTENSIONS` is answered with HTTP 400 and performs no state
change at all: no record inserted, no bytes written to the uploads
directory, no background task scheduled — the returned state is the
input state. -/
theorem claim_C3_invalid_extension_rejected :
    ∀ (st : ServerState) (fn : Option String) (uuidHex : List Char) (t : Nat),
      pyLower (pathSuffix (orUnknown fn).data) ∉ ALLOWED_EXTENSIONS →
      upload_file st fn uuidHex t = (.error 400, st) := by
  intro st fn uuidHex t h
  unfold upload_file
  rw [if_pos h]

/-- Witness for C3 at the concrete rejected filename `"evil.exe"`. -/
theorem claim_C3_invalid_extension_rejected_witness :
    pyLower (pathSuffix (orUnknown (some "evil.exe")).data) ∉ ALLOWED_EXTENSIONS ∧
    upload_file initialState (some "evil.exe") ['a'] 0
      = (.error 400, initialState) :=
  ⟨by decide,
   claim_C3_invalid_extension_rejected initialState (some "evil.exe") ['a'] 0
     (by decide)⟩

/-- C7: frame property of `update_file_status`.  The table keeps its
length; in every row the `id`, `filename`, `original_filename` and
`created_at` fields are untouched; a row whose id matches gets the new
status, and its `script_json` is overwritten exactly when a script is
supplied (otherwise left as it was); a row whose id differs is
completely unchanged. -/
theorem claim_C7_update_file_status_frame :
    ∀ (files : List FileRecord) (fid : Nat) (status : String)
      (sj : Option String) (i : Nat) (h : i < files.length),
      (update_file_status files fid status sj).length = files.length ∧
      ∀ (h2 : i < (update_file_status files fid status sj).length),
        ((update_file_status files fid status sj)[i]).id = (files[i]).id ∧
        ((update_file_status files fid status sj)[i]).filename
          = (files[i]).filename ∧
        ((update_file_status files fid status sj)[i]).original_filename
          = (files[i]).original_filename ∧
        ((update_file_status files fid status sj)[i]).created_at
          = (files[i]).created_at ∧
        ((files[i]).id = fid →
          ((update_file_status files fid status sj)[i]).status = status ∧
          (sj = none →
            ((update_file_status files fid status sj)[i]).script_json
              = (files[i]).script_json) ∧
          (∀ s, sj = some s →
            ((update_file_status files fid status sj)[i]).script_json = some s)) ∧
        ((files[i]).id ≠ fid →
          (update_file_status files fid status sj)[i] = files[i]) := by
  intro files fid status sj i h
  refine ⟨by simp [update_file_status], ?_⟩
  intro h2
  simp only [update_file_status, List.getElem_map]
  cases sj with
  | none =>
    by_cases hid : (files[i]).id = fid
    · rw [if_pos hid]
      refine ⟨rfl, rfl, rfl, rfl, fun _ => ⟨rfl, fun _ => rfl, ?_⟩,
        fun hne => absurd hid hne⟩
      intro s hs
      exact absurd hs (by simp)
    · rw [if_neg hid]
      exact ⟨rfl, rfl, rfl, rfl, fun he => absurd he hid, fun _ => rfl⟩
  | some s0 =>
    by_cases hid : (files[i]).id = fid
    · rw [if_pos hid]
      refine ⟨rfl, rfl, rfl, rfl, fun _ => ⟨rfl, ?_, ?_⟩,
        fun hne => absurd hid hne⟩
      · intro hn
        exact absurd hn (by simp)
      · intro s hs
        injection hs with h3
        subst h3
        rfl
    · rw [if_neg hid]
      exact ⟨rfl, rfl, rfl, rfl, fun he => absurd he hid, fun _ => rfl⟩

/-- Witness for C7: the status-only update on a two-record table leaves
the matching record's stored script untouched. -/
theorem claim_C7_update_file_status_frame_witness :
    (0 : Nat) < ([⟨1, "a", "oa", "script_ready", some "\x7b\x7d", 3⟩,
      ⟨2, "b", "ob", "processing", none, 4⟩] : List FileRecord).length ∧
    ((update_file_status [⟨1, "a", "oa", "script_ready", some "\x7b\x7d", 3⟩,
        ⟨2, "b", "ob", "processing", none, 4⟩] 1 "script_failed" none).length = 2 ∧
      (update_file_status [⟨1, "a", "oa", "script_ready", some "\x7b\x7d", 3⟩,
        ⟨2, "b", "ob", "processing", none, 4⟩] 1 "script_failed" none)[0].script_json
        = some "\x7b\x7d") := by
  have h := claim_C7_update_file_status_frame
    [⟨1, "a", "oa", "script_ready", some "\x7b\x7d", 3⟩,
     ⟨2, "b", "ob", "processing", none, 4⟩] 1 "script_failed" none 0 (by decide)
  refine ⟨by decide, h.1, ?_⟩
  have h3 := ((h.2 (by rw [h.1]; decide)).2.2.2.2.1 (by decide)).2.1 rfl
  simpa using h3

/-- C8: `GET /status/{file_id}` on an id that is in no row of the files
table answers 404; on an id whose lookup succeeds it answers 200 with
exactly the record's fields, its decoded script and its videos. -/
theorem claim_C8_status_lookup :
    ∀ (st : ServerState) (fid : Nat),
      ((∀ r ∈ st.files, r.id ≠ fid) → file_status st fid = .error 404) ∧
      (∀ r, get_file_by_id st.files fid = some r →
        file_status st fid = .ok ⟨r.id, r.original_filename, r.status,
          decodeScriptJson r.script_json, r.created_at,
          get_videos_by_file_id st.videos fid⟩) := by
  intro st fid
  constructor
  · intro h
    have hnone : get_file_by_id st.files fid = none := by
      unfold get_file_by_id
      rw [List.find?_eq_none]
      intro r hr
      simp [h r hr]
    unfold file_status
    rw [hnone]
  · intro r hr
    unfold file_status
    rw [hr]

/-- Witness for C8: 404 on the empty table, and field-exact 200 on a
one-record table. -/
theorem claim_C8_status_lookup_witness :
    file_status initialState 7 = .error 404 ∧
    file_status ⟨[⟨1, "a", "oa", "script_failed", none, 3⟩], [], [], [], [], 2⟩ 1
      = .ok ⟨1, "oa", "script_failed", none, 3, []⟩ := by
  constructor
  · exact (claim_C8_status_lookup initialState 7).1
      (by intro r hr; simp [initialState] at hr)
  · have h2 := (claim_C8_status_lookup
      ⟨[⟨1, "a", "oa", "script_failed", none, 3⟩], [], [], [], [], 2⟩ 1).2
      ⟨1, "a", "oa", "script_failed", none, 3⟩ rfl
    rw [h2]
    simp [get_videos_by_file_id, decodeScriptJson]

/-- C9: `get_all_files` (and `GET /files`, which returns it verbatim)
returns a permutation of the whole files table — no record missing,
none added — sorted with the newest `created_at` first. -/
theorem claim_C9_list_files_newest_first :
    ∀ st : ServerState,
      list_files st = get_all_files st.files ∧
      (get_all_files st.files).Perm st.files ∧
      List.Pairwise (fun a b : FileRecord => b.created_at ≤ a.created_at)
        (get_all_files st.files) := by
  intro st
  refine ⟨rfl, List.mergeSort_perm st.files newestFirst, ?_⟩
  have hs := @List.sorted_mergeSort FileRecord newestFirst
    (fun a b c hab hbc => by
      simp only [newestFirst, decide_eq_true_eq] at *
      omega)
    (fun a b => by
      simp only [newestFirst, Bool.or_eq_true, decide_eq_true_eq]
      omega)
    st.files
  exact hs.imp (fun hab => by
    simpa only [newestFirst, decide_eq_true_eq] using hab)

/-- C6: round trip of scripts through the store.  `json.loads` inverts
`json.dumps` on every script value, and a record whose `script_json`
was stored through the update path (`json.dumps` of the generated
script) is answered by `GET /status/{file_id}` with a `script` field
structurally equal to the original value — summary and slide order
included, since the whole JSON value is recovered. -/
theorem claim_C6_script_roundtrip :
    (∀ script : Json, jsonLoads (jsonDumpStr script).data = some script) ∧
    (∀ (st : ServerState) (fid : Nat) (r : FileRecord) (script : Json),
      get_file_by_id st.files fid = some r →
      r.script_json = some (jsonDumpStr script) →
      file_status st fid = .ok ⟨r.id, r.original_filename, r.status, some script,
        r.created_at, get_videos_by_file_id st.videos fid⟩) := by
  constructor
  · intro script
    rw [show (jsonDumpStr script).data = jsonDump script from rfl]
    exact jsonLoads_jsonDump script
  · intro st fid r script hr hs
    unfold file_status
    rw [hr]
    simp only [hs, decodeScriptJson_dump]

/-- Witness for C6 at a concrete script with a summary and one slide. -/
theorem claim_C6_script_roundtrip_witness :
    file_status
        ⟨[⟨1, "a", "oa", "script_ready",
           some (jsonDumpStr (Json.obj [("summary".data, Json.str "s".data),
             ("slides".data, Json.arr [Json.str "t".data])])), 3⟩],
          [], [], [], [], 2⟩ 1
      = .ok ⟨1, "oa", "script_ready",
          some (Json.obj [("summary".data, Json.str "s".data),
            ("slides".data, Json.arr [Json.str "t".data])]), 3, []⟩ := by
  have h := claim_C6_script_roundtrip.2
    ⟨[⟨1, "a", "oa", "script_ready",
       some (jsonDumpStr (Json.obj [("summary".data, Json.str "s".data),
         ("slides".data, Json.arr [Json.str "t".data])])), 3⟩],
      [], [], [], [], 2⟩ 1
    ⟨1, "a", "oa", "script_ready",
     some (jsonDumpStr (Json.obj [("summary".data, Json.str "s".data),
       ("slides".data, Json.arr [Json.str "t".data])])), 3⟩
    (Json.obj [("summary".data, Json.str "s".data),
      ("slides".data, Json.arr [Json.str "t".data])]) rfl rfl
  rw [h]
  simp [get_videos_by_file_id]

/- Path-suffix computation lemmas for C10 -/

theorem splitChar_no_sep (c : Char) (l : List Char) (h : c ∉ l) :
    splitChar c l = [l] := by
  induction l with
  | nil => rfl
  | cons x xs ih =>
    have hx : ¬(x = c) := by
      intro he
      subst he
      exact h (by simp)
    have hxs : c ∉ xs := fun hm => h (by simp [hm])
    simp [splitChar, hx, ih hxs]

theorem rfindDot_none (l : List Char) (h : '.' ∉ l) : rfindDot l = none := by
  induction l with
  | nil => rfl
  | cons x xs ih =>
    have hx : ¬(x = '.') := by
      intro he
      subst he
      exact h (by simp)
    have hxs : '.' ∉ xs := fun hm => h (by simp [hm])
    simp [rfindDot, ih hxs, hx]

theorem rfindDot_append (l1 l2 : List Char) (i : Nat) (h : rfindDot l2 = some i) :
    rfindDot (l1 ++ l2) = some (l1.length + i) := by
  induction l1 with
  | nil => simpa using h
  | cons x xs ih =>
    simp only [List.cons_append, rfindDot, List.append_eq, ih]
    simp only [List.length_cons, Option.some.injEq]
    omega

theorem pathName_uploads (X : List Char) (h1 : '/' ∉ X) (h2 : X ≠ [])
    (h3 : X ≠ ['.']) : pathName ("uploads/".data ++ X) = X := by
  unfold pathName
  rw [show "uploads/".data
      = 'u' :: 'p' :: 'l' :: 'o' :: 'a' :: 'd' :: 's' :: '/' :: ([] : List Char)
    from rfl]
  simp +decide [splitChar, splitChar_no_sep '/' X h1, h2, h3]

theorem suffix_of_hexext (cs hex tailext : List Char)
    (hname : pathName cs = hex ++ '.' :: tailext)
    (hhex : hex ≠ []) (hd2 : '.' ∉ tailext) (he : tailext ≠ []) :
    pathSuffix cs = '.' :: tailext := by
  unfold pathSuffix
  rw [hname]
  show (match rfindDot (hex ++ '.' :: tailext) with
    | none => []
    | some i =>
      if 0 < i ∧ i + 1 < (hex ++ '.' :: tailext).length
      then List.drop i (hex ++ '.' :: tailext) else []) = '.' :: tailext
  have hr2 : rfindDot ('.' :: tailext) = some 0 := by
    simp [rfindDot, rfindDot_none tailext hd2]
  rw [rfindDot_append hex ('.' :: tailext) 0 hr2]
  show (if 0 < hex.length + 0 ∧ hex.length + 0 + 1 < (hex ++ '.' :: tailext).length
      then List.drop (hex.length + 0) (hex ++ '.' :: tailext) else []) = '.' :: tailext
  have hcond : 0 < hex.length + 0 ∧ hex.length + 0 + 1 < (hex ++ '.' :: tailext).length := by
    have hp1 : 0 < hex.length := List.length_pos.mpr hhex
    have hp2 : 0 < tailext.length := List.length_pos.mpr he
    simp [List.length_append]
    omega
  rw [if_pos hcond, Nat.add_zero, List.drop_left]

theorem dispatch_uploads_hex (uuidHex tailext : List Char)
    (hne : uuidHex ≠ []) (hdot : '.' ∉ uuidHex) (hslash : '/' ∉ uuidHex)
    (htdot : '.' ∉ tailext) (htslash : '/' ∉ tailext) (hte : tailext ≠ []) :
    pathSuffix ("uploads/" ++ String.mk (uuidHex ++ '.' :: tailext)).data
      = '.' :: tailext := by
  have hdata : ("uploads/" ++ String.mk (uuidHex ++ '.' :: tailext)).data
      = "uploads/".data ++ (uuidHex ++ '.' :: tailext) := rfl
  rw [hdata]
  have hX1 : '/' ∉ uuidHex ++ '.' :: tailext := by
    intro hm
    rcases List.mem_append.mp hm with hm | hm
    · exact hslash hm
    · rcases List.mem_cons.mp hm with hm | hm
      · exact absurd hm (by decide)
      · exact htslash hm
  have hX2 : uuidHex ++ '.' :: tailext ≠ [] := by simp
  have hX3 : uuidHex ++ '.' :: tailext ≠ ['.'] := by
    intro heq
    have hl := congrArg List.length heq
    simp [List.length_append] at hl
    have hp := List.length_pos.mpr hne
    omega
  exact suffix_of_hexext _ uuidHex tailext
    (pathName_uploads (uuidHex ++ '.' :: tailext) hX1 hX2 hX3) hne htdot hte

theorem extract_dispatch_txt (uuidHex : List Char)
    (hne : uuidHex ≠ []) (hdot : '.' ∉ uuidHex) (hslash : '/' ∉ uuidHex) :
    extract_text_dispatch
        ("uploads/" ++ String.mk (uuidHex ++ ".txt".data)).data = .txtReader := by
  unfold extract_text_dispatch
  rw [show (".txt".data : List Char) = '.' :: "txt".data from rfl,
    dispatch_uploads_hex uuidHex "txt".data hne hdot hslash
      (by decide) (by decide) (by decide)]
  simp +decide

theorem extract_dispatch_pdf (uuidHex : List Char)
    (hne : uuidHex ≠ []) (hdot : '.' ∉ uuidHex) (hslash : '/' ∉ uuidHex) :
    extract_text_dispatch
        ("uploads/" ++ String.mk (uuidHex ++ ".pdf".data)).data = .pdfReader := by
  unfold extract_text_dispatch
  rw [show (".pdf".data : List Char) = '.' :: "pdf".data from rfl,
    dispatch_uploads_hex uuidHex "pdf".data hne hdot hslash
      (by decide) (by decide) (by decide)]
  simp +decide

/-- C10: the upload extension check is case-insensitive.  For a filename
whose case-folded extension is `.txt` or `.pdf`, the upload is
accepted, the stored record carries the generated storage name
`uuidHex ++ lower-cased extension` with status `processing`, and
`extract_text` dispatches the stored path to the matching extractor —
the unsupported-type branch is unreachable for accepted uploads
(`uuidHex` stands for `uuid.uuid4().hex`, a non-empty string of hex
digits, so it contains no dot and no slash). -/
theorem claim_C10_case_insensitive_extension :
    ∀ (st : ServerState) (fn : Option String) (uuidHex : List Char) (t : Nat),
      pyLower (pathSuffix (orUnknown fn).data) ∈ ALLOWED_EXTENSIONS →
      uuidHex ≠ [] → '.' ∉ uuidHex → '/' ∉ uuidHex →
      ((upload_file st fn uuidHex t).1
          = Except.ok ⟨st.nextId, orUnknown fn, "processing"⟩ ∧
       (∃ r ∈ (upload_file st fn uuidHex t).2.files,
          r.id = st.nextId ∧
          r.filename
            = String.mk (uuidHex ++ pyLower (pathSuffix (orUnknown fn).data)) ∧
          r.status = "processing") ∧
       extract_text_dispatch
           ("uploads/" ++ String.mk
             (uuidHex ++ pyLower (pathSuffix (orUnknown fn).data))).data
         ≠ .unsupportedType ∧
       (pyLower (pathSuffix (orUnknown fn).data) = ".txt".data →
         extract_text_dispatch
             ("uploads/" ++ String.mk
               (uuidHex ++ pyLower (pathSuffix (orUnknown fn).data))).data
           = .txtReader) ∧
       (pyLower (pathSuffix (orUnknown fn).data) = ".pdf".data →
         extract_text_dispatch
             ("uploads/" ++ String.mk
               (uuidHex ++ pyLower (pathSuffix (orUnknown fn).data))).data
           = .pdfReader)) := by
  intro st fn uuidHex t hmem hne hdot hslash
  have hacc : ¬(pyLower (pathSuffix (orUnknown fn).data) ∉ ALLOWED_EXTENSIONS) :=
    not_not.mpr hmem
  have h1 : (upload_file st fn uuidHex t).1
      = Except.ok ⟨st.nextId, orUnknown fn, "processing"⟩ := by
    simp only [upload_file]
    rw [if_neg hacc]
  have h2 : (upload_file st fn uuidHex t).2.files
      = update_file_status
          (insert_file st.files st.nextId
            (String.mk (uuidHex ++ pyLower (pathSuffix (orUnknown fn).data)))
            (orUnknown fn) t) st.nextId "processing" none := by
    simp only [upload_file]
    rw [if_neg hacc]
  have hcase : pyLower (pathSuffix (orUnknown fn).data) = ".txt".data ∨
      pyLower (pathSuffix (orUnknown fn).data) = ".pdf".data := by
    simpa [ALLOWED_EXTENSIONS] using hmem
  refine ⟨h1, ?_, ?_, ?_, ?_⟩
  · rw [h2]
    refine ⟨⟨st.nextId,
      String.mk (uuidHex ++ pyLower (pathSuffix (orUnknown fn).data)),
      orUnknown fn, "processing", none, t⟩, ?_, rfl, rfl, rfl⟩
    unfold update_file_status insert_file
    rw [List.map_append]
    apply List.mem_append_right
    simp
  · rcases hcase with hext | hext <;> rw [hext]
    · rw [extract_dispatch_txt uuidHex hne hdot hslash]
      decide
    · rw [extract_dispatch_pdf uuidHex hne hdot hslash]
      decide
  · intro htxt
    rw [htxt]
    exact extract_dispatch_txt uuidHex hne hdot hslash
  · intro hpdf
    rw [hpdf]
    exact extract_dispatch_pdf uuidHex hne hdot hslash

/-- Witness for C10 at the upper-case filename `"Doc.TXT"`. -/
theorem claim_C10_case_insensitive_extension_witness :
    pyLower (pathSuffix (orUnknown (some "Doc.TXT")).data) ∈ ALLOWED_EXTENSIONS ∧
    extract_text_dispatch
        ("uploads/" ++ String.mk
          ("ab".data ++ pyLower (pathSuffix (orUnknown (some "Doc.TXT")).data))).data
      ≠ .unsupportedType := by
  have h := claim_C10_case_insensitive_extension initialState (some "Doc.TXT")
    "ab".data 0 (by decide) (by decide) (by decide) (by decide)
  exact ⟨by decide, h.2.2.1⟩

/- State-invariant machinery for the lifecycle claim -/

theorem mem_update_file_status {files : List FileRecord} {fid : Nat}
    {st : String} {sj : Option String} {r2 : FileRecord} :
    r2 ∈ update_file_status files fid st sj ↔
      ∃ r ∈ files, r2 = (if r.id = fid then
        (match sj with
         | some s => { r with status := st, script_json := some s }
         | none => { r with status := st })
        else r) := by
  unfold update_file_status
  constructor
  · intro h
    obtain ⟨r, hr, he⟩ := List.mem_map.mp h
    exact ⟨r, hr, he.symm⟩
  · rintro ⟨r, hr, he⟩
    exact he ▸ List.mem_map_of_mem _ hr

theorem update_row_id (r : FileRecord) (fid : Nat) (st : String) (sj : Option String) :
    ((if r.id = fid then
      (match sj with
       | some s => { r with status := st, script_json := some s }
       | none => { r with status := st })
      else r) : FileRecord).id = r.id := by
  by_cases h : r.id = fid
  · cases sj <;> simp [h]
  · simp [h]

theorem update_id_map (files : List FileRecord) (fid : Nat) (st : String)
    (sj : Option String) :
    (update_file_status files fid st sj).map (fun r => r.id)
      = files.map (fun r => r.id) := by
  unfold update_file_status
  rw [List.map_map]
  apply List.map_congr_left
  intro r _
  exact update_row_id r fid st sj

theorem StateInv_initial : StateInv initialState := by
  unfold StateInv initialState
  simp

theorem StateInv_step {s s' : ServerState} (hinv : StateInv s) (hs : Step s s') :
    StateInv s' := by
  obtain ⟨hbound, hnodup, hinodup, htnodup, hdisj, hins, htasks, hscript, halpha⟩ := hinv
  cases hs with
  | insertRow fn ofn fp t =>
    unfold StateInv
    dsimp only
    refine ⟨?_, ?_, ?_, htnodup, ?_, ?_, ?_, ?_, ?_⟩
    · intro r hr
      simp only [insert_file] at hr
      rcases List.mem_append.mp hr with hr | hr
      · have := hbound r hr
        omega
      · simp at hr
        subst hr
        simp
    · simp only [insert_file]
      rw [List.map_append, List.nodup_append]
      refine ⟨hnodup, by simp, ?_⟩
      intro a ha hb
      simp at hb
      subst hb
      obtain ⟨r, hr, hid⟩ := List.mem_map.mp ha
      have := hbound r hr
      omega
    · rw [List.nodup_append]
      refine ⟨hinodup, by simp, ?_⟩
      intro a ha hb
      simp at hb
      subst hb
      obtain ⟨r, hr, hid, _⟩ := hins _ ha
      have := hbound r hr
      omega
    · intro i hi
      rcases List.mem_append.mp hi with hi | hi
      · exact hdisj i hi
      · simp at hi
        subst hi
        intro hc
        obtain ⟨r, hr, hid, _⟩ := htasks _ hc
        have := hbound r hr
        omega
    · intro i hi
      rcases List.mem_append.mp hi with hi | hi
      · obtain ⟨r, hr, hid, hst⟩ := hins i hi
        exact ⟨r, by simp [insert_file, hr], hid, hst⟩
      · simp at hi
        subst hi
        exact ⟨⟨s.nextId, fn, ofn, "uploaded", none, t⟩, by simp [insert_file],
          rfl, rfl⟩
    · intro i hi
      obtain ⟨r, hr, hid, hst⟩ := htasks i hi
      exact ⟨r, by simp [insert_file, hr], hid, hst⟩
    · intro r hr
      simp only [insert_file] at hr
      rcases List.mem_append.mp hr with hr | hr
      · exact hscript r hr
      · simp at hr
        subst hr
        simp +decide
    · intro r hr
      simp only [insert_file] at hr
      rcases List.mem_append.mp hr with hr | hr
      · exact halpha r hr
      · simp at hr
        subst hr
        exact Or.inl rfl
  | markProcessing fid hmem =>
    unfold StateInv
    dsimp only
    have hfid_not_task : fid ∉ s.tasks := hdisj fid hmem
    obtain ⟨r0, hr0mem, hr0id, hr0st⟩ := hins fid hmem
    refine ⟨?_, ?_, hinodup.erase fid, ?_, ?_, ?_, ?_, ?_, ?_⟩
    · intro r2 hr2
      obtain ⟨r, hr, he⟩ := mem_update_file_status.mp hr2
      subst he
      by_cases hc : r.id = fid
      · rw [if_pos hc]
        dsimp only
        exact hbound r hr
      · rw [if_neg hc]
        exact hbound r hr
    · rw [update_id_map]
      exact hnodup
    · rw [List.nodup_append]
      refine ⟨htnodup, by simp, ?_⟩
      intro a ha hb
      simp at hb
      subst hb
      exact hfid_not_task ha
    · intro i hi
      have hi2 := (hinodup.mem_erase_iff).mp hi
      intro hc
      rcases List.mem_append.mp hc with hc | hc
      · exact hdisj i hi2.2 hc
      · simp at hc
        exact hi2.1 hc
    · intro i hi
      have hi2 := (hinodup.mem_erase_iff).mp hi
      obtain ⟨r, hr, hid, hst⟩ := hins i hi2.2
      have hcond : ¬(r.id = fid) := by
        rw [hid]
        exact hi2.1
      exact ⟨r, mem_update_file_status.mpr ⟨r, hr, (if_neg hcond).symm⟩, hid, hst⟩
    · intro i hi
      rcases List.mem_append.mp hi with hti | hti
      · obtain ⟨r, hr, hid, hst⟩ := htasks i hti
        have hine : ¬(i = fid) := by
          intro he
          subst he
          exact hfid_not_task hti
        have hcond : ¬(r.id = fid) := by
          rw [hid]
          exact hine
        exact ⟨r, mem_update_file_status.mpr ⟨r, hr, (if_neg hcond).symm⟩, hid, hst⟩
      · simp at hti
        subst hti
        refine ⟨{ r0 with status := "processing" }, ?_, hr0id, rfl⟩
        apply mem_update_file_status.mpr
        exact ⟨r0, hr0mem, by rw [if_pos hr0id]⟩
    · intro r2 hr2
      obtain ⟨r, hr, he⟩ := mem_update_file_status.mp hr2
      subst he
      by_cases hc : r.id = fid
      · rw [if_pos hc]
        have hrr0 : r = r0 :=
          List.inj_on_of_nodup_map hnodup hr hr0mem (by rw [hc, hr0id])
        subst hrr0
        have hnone : r.script_json = none := by
          cases hsj : r.script_json with
          | none => rfl
          | some sc =>
            exfalso
            have h2 := (hscript r hr).mp (by rw [hsj]; rfl)
            rw [hr0st] at h2
            exact absurd h2 (by decide)
        simp +decide [hnone]
      · rw [if_neg hc]
        exact hscript r hr
    · intro r2 hr2
      obtain ⟨r, hr, he⟩ := mem_update_file_status.mp hr2
      subst he
      by_cases hc : r.id = fid
      · rw [if_pos hc]
        simp +decide
      · rw [if_neg hc]
        exact halpha r hr
  | taskSucceeds fid hmem js =>
    unfold StateInv
    dsimp only
    obtain ⟨r0, hr0mem, hr0id, hr0st⟩ := htasks fid hmem
    refine ⟨?_, ?_, hinodup, htnodup.erase fid, ?_, ?_, ?_, ?_, ?_⟩
    · intro r2 hr2
      obtain ⟨r, hr, he⟩ := mem_update_file_status.mp hr2
      subst he
      by_cases hc : r.id = fid
      · rw [if_pos hc]
        dsimp only
        exact hbound r hr
      · rw [if_neg hc]
        exact hbound r hr
    · rw [update_id_map]
      exact hnodup
    · intro i hi
      intro hc
      exact hdisj i hi (List.mem_of_mem_erase hc)
    · intro i hi
      obtain ⟨r, hr, hid, hst⟩ := hins i hi
      have hine : ¬(i = fid) := by
        intro he
        subst he
        exact hdisj i hi hmem
      have hcond : ¬(r.id = fid) := by
        rw [hid]
        exact hine
      exact ⟨r, mem_update_file_status.mpr ⟨r, hr, (if_neg hcond).symm⟩, hid, hst⟩
    · intro i hi
      have hi2 := (htnodup.mem_erase_iff).mp hi
      obtain ⟨r, hr, hid, hst⟩ := htasks i hi2.2
      have hcond : ¬(r.id = fid) := by
        rw [hid]
        exact hi2.1
      exact ⟨r, mem_update_file_status.mpr ⟨r, hr, (if_neg hcond).symm⟩, hid, hst⟩
    · intro r2 hr2
      obtain ⟨r, hr, he⟩ := mem_update_file_status.mp hr2
      subst he
      by_cases hc : r.id = fid
      · rw [if_pos hc]
        simp
      · rw [if_neg hc]
        exact hscript r hr
    · intro r2 hr2
      obtain ⟨r, hr, he⟩ := mem_update_file_status.mp hr2
      subst he
      by_cases hc : r.id = fid
      · rw [if_pos hc]
        simp +decide
      · rw [if_neg hc]
        exact halpha r hr
  | taskFails fid hmem =>
    unfold StateInv
    dsimp only
    obtain ⟨r0, hr0mem, hr0id, hr0st⟩ := htasks fid hmem
    refine ⟨?_, ?_, hinodup, htnodup.erase fid, ?_, ?_, ?_, ?_, ?_⟩
    · intro r2 hr2
      obtain ⟨r, hr, he⟩ := mem_update_file_status.mp hr2
      subst he
      by_cases hc : r.id = fid
      · rw [if_pos hc]
        dsimp only
        exact hbound r hr
      · rw [if_neg hc]
        exact hbound r hr
    · rw [update_id_map]
      exact hnodup
    · intro i hi
      intro hc
      exact hdisj i hi (List.mem_of_mem_erase hc)
    · intro i hi
      obtain ⟨r, hr, hid, hst⟩ := hins i hi
      have hine : ¬(i = fid) := by
        intro he
        subst he
        exact hdisj i hi hmem
      have hcond : ¬(r.id = fid) := by
        rw [hid]
        exact hine
      exact ⟨r, mem_update_file_status.mpr ⟨r, hr, (if_neg hcond).symm⟩, hid, hst⟩
    · intro i hi
      have hi2 := (htnodup.mem_erase_iff).mp hi
      obtain ⟨r, hr, hid, hst⟩ := htasks i hi2.2
      have hcond : ¬(r.id = fid) := by
        rw [hid]
        exact hi2.1
      exact ⟨r, mem_update_file_status.mpr ⟨r, hr, (if_neg hcond).symm⟩, hid, hst⟩
    · intro r2 hr2
      obtain ⟨r, hr, he⟩ := mem_update_file_status.mp hr2
      subst he
      by_cases hc : r.id = fid
      · rw [if_pos hc]
        have hrr0 : r = r0 :=
          List.inj_on_of_nodup_map hnodup hr hr0mem (by rw [hc, hr0id])
        subst hrr0
        have hnone : r.script_json = none := by
          cases hsj : r.script_json with
          | none => rfl
          | some sc =>
            exfalso
            have h2 := (hscript r hr).mp (by rw [hsj]; rfl)
            rw [hr0st] at h2
            exact absurd h2 (by decide)
        simp +decide [hnone]
      · rw [if_neg hc]
        exact hscript r hr
    · intro r2 hr2
      obtain ⟨r, hr, he⟩ := mem_update_file_status.mp hr2
      subst he
      by_cases hc : r.id = fid
      · rw [if_pos hc]
        simp +decide
      · rw [if_neg hc]
        exact halpha r hr

theorem reachable_StateInv {s : ServerState} (h : Reachable s) : StateInv s := by
  induction h with
  | init => exact StateInv_initial
  | step _ hs ih => exact StateInv_step ih hs

/-- C1: in every reachable state of the files table, each record's
script is set exactly when its status is `script_ready` and its status
belongs to the four-value lifecycle alphabet; and across every
application write the status of an existing record only moves forward
along `uploaded → processing → {script_ready | script_failed}` — its
rank never decreases and a record in a terminal status is never
changed again. -/
theorem claim_C1_status_lifecycle :
    ∀ s : ServerState, Reachable s →
      (∀ r ∈ s.files,
        (r.script_json.isSome ↔ r.status = "script_ready") ∧
        (r.status = "uploaded" ∨ r.status = "processing" ∨
         r.status = "script_ready" ∨ r.status = "script_failed")) ∧
      (∀ s2, Step s s2 → ∀ r ∈ s.files, ∃ r2 ∈ s2.files,
        r2.id = r.id ∧ statusRank r.status ≤ statusRank r2.status ∧
        (isTerminalStatus r.status = true → r2 = r)) := by
  intro s hreach
  obtain ⟨hbound, hnodup, hinodup, htnodup, hdisj, hins, htasks, hscript, halpha⟩ :=
    reachable_StateInv hreach
  refine ⟨fun r hr => ⟨hscript r hr, halpha r hr⟩, ?_⟩
  intro s2 hs r hr
  cases hs with
  | insertRow fn ofn fp t =>
    refine ⟨r, ?_, rfl, le_refl _, fun _ => rfl⟩
    dsimp only
    simp [insert_file, hr]
  | markProcessing fid hmem =>
    dsimp only
    by_cases hc : r.id = fid
    · obtain ⟨r0, hr0mem, hr0id, hr0st⟩ := hins fid hmem
      have hrr0 : r = r0 :=
        List.inj_on_of_nodup_map hnodup hr hr0mem (by rw [hc, hr0id])
      subst hrr0
      refine ⟨{ r with status := "processing" }, ?_, rfl, ?_, ?_⟩
      · apply mem_update_file_status.mpr
        exact ⟨r, hr, by rw [if_pos hc]⟩
      · have hst : ({ r with status := "processing" } : FileRecord).status
            = "processing" := rfl
        rw [hst, hr0st]
        decide
      · intro hterm
        rw [hr0st] at hterm
        exact absurd hterm (by decide)
    · refine ⟨r, ?_, rfl, le_refl _, fun _ => rfl⟩
      apply mem_update_file_status.mpr
      exact ⟨r, hr, (if_neg hc).symm⟩
  | taskSucceeds fid hmem js =>
    dsimp only
    by_cases hc : r.id = fid
    · obtain ⟨r0, hr0mem, hr0id, hr0st⟩ := htasks fid hmem
      have hrr0 : r = r0 :=
        List.inj_on_of_nodup_map hnodup hr hr0mem (by rw [hc, hr0id])
      subst hrr0
      refine ⟨{ r with status := "script_ready", script_json := some js },
        ?_, rfl, ?_, ?_⟩
      · apply mem_update_file_status.mpr
        exact ⟨r, hr, by rw [if_pos hc]⟩
      · have hst : ({ r with status := "script_ready", script_json := some js }
            : FileRecord).status = "script_ready" := rfl
        rw [hst, hr0st]
        decide
      · intro hterm
        rw [hr0st] at hterm
        exact absurd hterm (by decide)
    · refine ⟨r, ?_, rfl, le_refl _, fun _ => rfl⟩
      apply mem_update_file_status.mpr
      exact ⟨r, hr, (if_neg hc).symm⟩
  | taskFails fid hmem =>
    dsimp only
    by_cases hc : r.id = fid
    · obtain ⟨r0, hr0mem, hr0id, hr0st⟩ := htasks fid hmem
      have hrr0 : r = r0 :=
        List.inj_on_of_nodup_map hnodup hr hr0mem (by rw [hc, hr0id])
      subst hrr0
      refine ⟨{ r with status := "script_failed" }, ?_, rfl, ?_, ?_⟩
      · apply mem_update_file_status.mpr
        exact ⟨r, hr, by rw [if_pos hc]⟩
      · have hst : ({ r with status := "script_failed" } : FileRecord).status
            = "script_failed" := rfl
        rw [hst, hr0st]
        decide
      · intro hterm
        rw [hr0st] at hterm
        exact absurd hterm (by decide)
    · refine ⟨r, ?_, rfl, le_refl _, fun _ => rfl⟩
      apply mem_update_file_status.mpr
      exact ⟨r, hr, (if_neg hc).symm⟩

/-- Witness for C1: after one insert from the empty database —
a reachable state — the inserted record satisfies the script/status
relation and the status alphabet. -/
theorem claim_C1_status_lifecycle_witness :
    ((⟨1, "f.txt", "o.txt", "uploaded", none, 5⟩ : FileRecord).script_json.isSome ↔
      (⟨1, "f.txt", "o.txt", "uploaded", none, 5⟩ : FileRecord).status
        = "script_ready") ∧
    ((⟨1, "f.txt", "o.txt", "uploaded", none, 5⟩ : FileRecord).status = "uploaded" ∨
     (⟨1, "f.txt", "o.txt", "uploaded", none, 5⟩ : FileRecord).status = "processing" ∨
     (⟨1, "f.txt", "o.txt", "uploaded", none, 5⟩ : FileRecord).status = "script_ready" ∨
     (⟨1, "f.txt", "o.txt", "uploaded", none, 5⟩ : FileRecord).status
        = "script_failed") :=
  (claim_C1_status_lifecycle _
    (Reachable.step Reachable.init
      (Step.insertRow initialState "f.txt" "o.txt" "uploads/f.txt" 5))).1
    ⟨1, "f.txt", "o.txt", "uploaded", none, 5⟩ (by simp [initialState, insert_file])
